import Mathlib

/-!
Verification development for the narration-synthesis pipeline of the
`handhold` repository (`src-tauri/src/tts/`): sentence segmentation,
RIFF/WAVE decoding and encoding, per-sentence synthesis with voice
fallback, timeline stitching, and the bundle export path.

Conventions of the shallow embedding:
* Rust `&str` / `String` values are modelled as `List Char`; byte offsets
  into UTF-8 text are tracked explicitly via `Char.utf8Size`.
* Byte buffers (`Vec<u8>`, `&[u8]`) are modelled as `List Nat`; every read
  of a byte as a number goes through `byteAt`, which reduces the stored
  value modulo 256 exactly as the `u8` type does in the source.
* Rust `f64` / `f32` arithmetic is modelled over `ℚ` (exact rationals);
  floating-point rounding is not modelled, and division by zero yields 0
  in `ℚ` where `f64` yields `±inf`/`NaN`.  None of the theorems below
  depend on a value that floating-point rounding could perturb: they are
  inequalities and structural equalities that are preserved verbatim.
  Theorems whose truth the division-by-zero divergence would affect carry
  an explicit positive-sample-rate hypothesis (see `sentenceDurationMs`).
* Loops are translated into structural recursions; loops whose index jumps
  (the chunk walker, the segmenter) take an explicit fuel argument that the
  caller sets to at least the number of iterations the Rust loop performs,
  so the out-of-fuel branch is unreachable for those calls.
* Filesystem and subprocess effects are passed in as explicit parameters
  (oracles for the cache, the engine, and the bundle directory contents);
  the functions under test are the pure computations of the source.
-/

/-! ### Character classes used by the Rust source -/

/-- Rust `char::is_whitespace`: the Unicode `White_Space` property
(the exact character list of the Unicode 15 table used by Rust). -/
def rustWhitespace (c : Char) : Bool :=
  c.toNat = 0x9 ∨ c.toNat = 0xA ∨ c.toNat = 0xB ∨ c.toNat = 0xC ∨ c.toNat = 0xD ∨
  c.toNat = 0x20 ∨ c.toNat = 0x85 ∨ c.toNat = 0xA0 ∨ c.toNat = 0x1680 ∨
  (0x2000 ≤ c.toNat ∧ c.toNat ≤ 0x200A) ∨
  c.toNat = 0x2028 ∨ c.toNat = 0x2029 ∨ c.toNat = 0x202F ∨ c.toNat = 0x205F ∨
  c.toNat = 0x3000

/-- Rust `u8::is_ascii_whitespace` (space, tab, newline, form feed, carriage
return), lifted to the character starting at that byte: a multi-byte
character's first byte is never ASCII whitespace, so testing the character
is equivalent to testing the byte. -/
def asciiWhitespace (c : Char) : Bool :=
  c.toNat = 0x20 ∨ c.toNat = 0x9 ∨ c.toNat = 0xA ∨ c.toNat = 0xC ∨ c.toNat = 0xD

/-- Rust `u8::is_ascii_punctuation`. -/
def asciiPunctuation (c : Char) : Bool :=
  (0x21 ≤ c.toNat ∧ c.toNat ≤ 0x2F) ∨ (0x3A ≤ c.toNat ∧ c.toNat ≤ 0x40) ∨
  (0x5B ≤ c.toNat ∧ c.toNat ≤ 0x60) ∨ (0x7B ≤ c.toNat ∧ c.toNat ≤ 0x7E)

/-- Sentence-boundary characters of `split.rs`: `.`, `!`, `?`. -/
def boundaryChar (c : Char) : Bool :=
  c.toNat = 0x2E ∨ c.toNat = 0x21 ∨ c.toNat = 0x3F

/-- UTF-8 byte length of a character list (Rust `str::len`). -/
def byteLen (cs : List Char) : Nat :=
  (cs.map Char.utf8Size).sum

/-- Rust `str::trim_start` with respect to Unicode whitespace. -/
def trimStart (cs : List Char) : List Char :=
  cs.dropWhile rustWhitespace

/-- Rust `str::trim_end` with respect to Unicode whitespace. -/
def trimEnd (cs : List Char) : List Char :=
  (cs.reverse.dropWhile rustWhitespace).reverse

/-- Rust `str::trim`. -/
def rustTrim (cs : List Char) : List Char :=
  trimEnd (trimStart cs)

/-! ### Segmenter (`split.rs`, `split_sentences`) -/

/-- Tail handling of `split_sentences`: the trailing slice
`text[start..]` becomes a final sentence when it trims to something
non-empty; its offset is `start` plus the byte length of its leading
whitespace (`raw.len() - raw.trim_start().len()`). -/
def splitTail (startPos : Nat) (raw : List Char) : List (Nat × List Char) :=
  let trimmed := rustTrim raw
  if trimmed = [] then []
  else [(startPos + byteLen (raw.takeWhile rustWhitespace), trimmed)]

/-- Loop body of `split_sentences`, translated char-by-char.
`pending` holds `text[start..i]` (the slice accumulated since the last
boundary), `startPos` the byte offset of `start`, `rest` the unread
remainder.  Fuel bounds the iteration count; every iteration consumes at
least one character, so fuel `rest.length` is always sufficient and the
out-of-fuel branch (which finalizes like loop exit) is unreachable. -/
def splitLoop : Nat → List Char → Nat → List Char → List (Nat × List Char)
  | 0, pending, startPos, rest => splitTail startPos (pending ++ rest)
  | _ + 1, pending, startPos, [] => splitTail startPos pending
  | fuel + 1, pending, startPos, c :: rs =>
    if boundaryChar c then
      -- collapse the run of boundary characters
      let run := c :: rs.takeWhile boundaryChar
      let after := rs.dropWhile boundaryChar
      -- boundary fires only at end-of-text or before ASCII whitespace
      if after = [] ∨ asciiWhitespace (after.headD ' ') then
        let raw := pending ++ run
        let trimmed := rustTrim raw
        let emitted :=
          if trimmed = [] then []
          else [(startPos + byteLen (raw.takeWhile rustWhitespace), trimmed)]
        let ws := after.takeWhile asciiWhitespace
        let rest2 := after.dropWhile asciiWhitespace
        emitted ++ splitLoop fuel [] (startPos + byteLen raw + byteLen ws) rest2
      else
        splitLoop fuel (pending ++ run) startPos after
    else
      splitLoop fuel (pending ++ [c]) startPos rs

/-- `split_sentences` of `split.rs`: sentence slices with the byte offset of
their first non-whitespace character. -/
def splitSentences (text : List Char) : List (Nat × List Char) :=
  splitLoop text.length [] 0 text

/-! ### Global word extraction (`timing.rs`, `extract_input_words`) -/

/-- One whitespace-delimited token of the original text (`timing.rs`):
its global 0-based index and the byte offset of its first character. -/
structure InputWord where
  index : Nat
  char_offset : Nat
deriving DecidableEq, Repr

/-- Loop of `extract_input_words`: skip whitespace, then consume one
non-empty word, emit it, repeat.  `pos` is the byte offset of `cs`'s head
in the original text.  Each recursive step consumes at least the word's
characters, so fuel `cs.length` is always sufficient. -/
def extractLoop : Nat → Nat → Nat → List Char → List InputWord
  | 0, _, _, _ => []
  | fuel + 1, pos, idx, cs =>
    let ws := cs.takeWhile rustWhitespace
    let rest := cs.dropWhile rustWhitespace
    match rest with
    | [] => []
    | _ :: _ =>
      let wordStart := pos + byteLen ws
      let word := rest.takeWhile (fun c => !rustWhitespace c)
      let rest2 := rest.dropWhile (fun c => !rustWhitespace c)
      ⟨idx, wordStart⟩ :: extractLoop fuel (wordStart + byteLen word) (idx + 1) rest2

/-- `extract_input_words` of `timing.rs`. -/
def extractInputWords (text : List Char) : List InputWord :=
  extractLoop text.length 0 0 text

/-! ### Alignment TSV parsing (`timing.rs`, `parse_tsv_words`) -/

/-- Rust `str::lines`: split on newlines, accepting a trailing line
terminator, and stripping one trailing carriage return per line. -/
def rustLines (cs : List Char) : List (List Char) :=
  if cs = [] then []
  else
    let parts := cs.splitOn '\n'
    let parts :=
      if cs.getLast? = some '\n' then parts.dropLast else parts
    parts.map (fun l => if l.getLast? = some '\r' then l.dropLast else l)

/-- Digits-only natural number reader (helper for `parseF64`). -/
def natOfDigits (cs : List Char) : Option Nat :=
  if cs = [] then none
  else if cs.all (fun c => decide ('0' ≤ c) && decide (c ≤ '9')) then
    some (cs.foldl (fun a c => a * 10 + (c.toNat - 48)) 0)
  else none

/-- Model of Rust `str::parse::<f64>()` on the plain decimal literals the
engine's TSV columns contain (optional sign, integer part, optional
fractional part); other accepted Rust syntaxes (exponents, `inf`, `nan`)
are mapped to `none`.  No theorem below depends on the numeric value of a
parsed column except through an explicit hypothesis on that value. -/
def parseF64 (cs : List Char) : Option ℚ :=
  let signed : Bool × List Char :=
    match cs with
    | '-' :: r => (true, r)
    | '+' :: r => (false, r)
    | r => (false, r)
  let withSign : ℚ → ℚ := fun q => if signed.1 then -q else q
  match signed.2.splitOn '.' with
  | [ip] => (natOfDigits ip).map (fun n => withSign n)
  | [ip, fp] =>
    if ip = [] ∧ fp = [] then none
    else if ip.all (fun c => decide ('0' ≤ c) && decide (c ≤ '9')) &&
            fp.all (fun c => decide ('0' ≤ c) && decide (c ≤ '9')) then
      let ipv : ℚ := (ip.foldl (fun a c => a * 10 + (c.toNat - 48)) 0 : Nat)
      let fpv : ℚ := (fp.foldl (fun a c => a * 10 + (c.toNat - 48)) 0 : Nat)
      some (withSign (ipv + fpv / ((10 : ℚ) ^ fp.length)))
    else none
  | _ => none

/-- `parse_tsv_words` of `timing.rs`: skip the header line, keep rows with
at least three tab-separated columns whose word is not made solely of
ASCII punctuation; unparsable numbers default to 0. -/
def parseTsvWords (tsv : List Char) : List (List Char × ℚ × ℚ) :=
  ((rustLines tsv).drop 1).foldr
    (fun line acc =>
      let cols := line.splitOn '\t'
      if cols.length < 3 then acc
      else
        let word := cols.headD []
        if word.all asciiPunctuation then acc
        else
          ((word,
            (parseF64 (cols.getD 1 [])).getD 0,
            (parseF64 (cols.getD 2 [])).getD 0)) :: acc)
    []

/-! ### Timeline stitching (`timing.rs`, `stitch_sentences`) -/

/-- The per-sentence audio fragment of `cache.rs`: normalized PCM bytes,
sample rate, and the engine's raw alignment output. -/
structure CachedSentence where
  pcm : List Nat
  sample_rate : Nat
  tsv_content : List Char
deriving DecidableEq, Repr

/-- One word timing as delivered to the caller. -/
structure WordTiming where
  word_index : Nat
  char_offset : Nat
  start_ms : ℚ
  end_ms : ℚ
deriving DecidableEq, Repr

/-- The stitched product of one synthesis request. -/
structure StitchedResult where
  pcm : List Nat
  sample_rate : Nat
  timings : List WordTiming
  duration_ms : ℚ
deriving DecidableEq, Repr

/-- Sentence duration in milliseconds, computed purely from PCM byte
length and the sentence's own sample rate
(`(len / 2 / sample_rate) * 1000` in `stitch_sentences`).

Model divergence: over ℚ, division by a zero `sample_rate` yields 0,
whereas the source's `f64` arithmetic yields `+inf` there (and the
interpolation path then produces `0.0 * inf = NaN` timings).  The source
never rejects a zero rate, so any theorem about timing values that must
be faithful to the `f64` program restricts itself to results whose
sentences all have a positive sample rate; for positive rates the exact
rational value agrees with the finite `f64` computation (rounding is
monotone, and only inequalities are asserted). -/
def sentenceDurationMs (c : CachedSentence) : ℚ :=
  ((c.pcm.length : ℚ) / 2 / (c.sample_rate : ℚ)) * 1000

/-- The `[start, end)` byte span end of a sentence: its recorded start plus
its trimmed byte length, or the text's byte length when the start is not
found among the sentences (`unwrap_or(text.len())`). -/
def sentenceByteEnd (text : List Char) (sentences : List (Nat × List Char))
    (start : Nat) : Nat :=
  ((sentences.find? (fun p => p.1 = start)).map
    (fun p => p.1 + byteLen p.2)).getD (byteLen text)

/-- The sentence's local word list: the input words whose byte offsets fall
in the sentence's span. -/
def localWords (inputWords : List InputWord) (start stop : Nat) :
    List InputWord :=
  inputWords.filter (fun iw =>
    decide (start ≤ iw.char_offset) && decide (iw.char_offset < stop))

/-- Timings taken positionally from alignment rows: the enumeration loop in
`stitch_sentences` consumes local word `i` together with row `i` and stops
at the shorter of the two lists, which is exactly `List.zip`. -/
def rowTimings (pairs : List (InputWord × (List Char × ℚ × ℚ)))
    (off : ℚ) : List WordTiming :=
  pairs.map (fun pr =>
    ⟨pr.1.index, pr.1.char_offset,
     pr.2.2.1 * 1000 + off, pr.2.2.2 * 1000 + off⟩)

/-- Uniform linear interpolation fallback of `stitch_sentences`: word `i`
of `n` gets the slice `[(i/n)*d, ((i+1)/n)*d)` shifted by the running
offset. -/
def interpTimings : List InputWord → Nat → ℚ → ℚ → ℚ → List WordTiming
  | [], _, _, _, _ => []
  | w :: rest, i, n, d, off =>
    ⟨w.index, w.char_offset, ((i : ℚ) / n) * d + off,
     (((i : ℚ) + 1) / n) * d + off⟩ :: interpTimings rest (i + 1) n d off

/-- The timings one loop iteration of `stitch_sentences` appends for one
sentence result, given the running time offset. -/
def sentenceBlock (text : List Char) (sentences : List (Nat × List Char))
    (inputWords : List InputWord) (entry : Nat × CachedSentence)
    (off : ℚ) : List WordTiming :=
  let rows := parseTsvWords entry.2.tsv_content
  let stop := sentenceByteEnd text sentences entry.1
  let ws := localWords inputWords entry.1 stop
  if rows ≠ [] then rowTimings (ws.zip rows) off
  else interpTimings ws 0 ((max ws.length 1 : Nat) : ℚ)
    (sentenceDurationMs entry.2) off

/-- The accumulation loop of `stitch_sentences`: concatenated PCM, timings
in emission order, and the final running offset (= total duration). -/
def stitchLoop (text : List Char) (sentences : List (Nat × List Char))
    (inputWords : List InputWord) :
    List (Nat × CachedSentence) → ℚ → List Nat × List WordTiming × ℚ
  | [], off => ([], [], off)
  | entry :: rest, off =>
    let blk := sentenceBlock text sentences inputWords entry off
    let tail := stitchLoop text sentences inputWords rest
      (off + sentenceDurationMs entry.2)
    (entry.2.pcm ++ tail.1, blk ++ tail.2.1, tail.2.2)

/-- `stitch_sentences` of `timing.rs`. -/
def stitchSentences (text : List Char) (sentences : List (Nat × List Char))
    (sentence_results : List (Nat × CachedSentence)) :
    Except String StitchedResult :=
  let inputWords := extractInputWords text
  let sample_rate :=
    ((sentence_results.head?).map (fun e => e.2.sample_rate)).getD 24000
  let acc := stitchLoop text sentences inputWords sentence_results 0
  if acc.1 = [] then .error ("No audio produced for any sentence")
  else .ok ⟨acc.1, sample_rate, acc.2.1, acc.2.2⟩

/-- `text_word_at` of `timing.rs`: the first whitespace-delimited token of
the text's byte-suffix at `offset` (the source slices at a byte index that
is always a character boundary in its callers; the model drops the
characters that end at or before `offset`). -/
def textWordAt (text : List Char) (offset : Nat) : List Char :=
  let rec dropBytes : List Char → Nat → List Char
    | cs, 0 => cs
    | [], _ => []
    | c :: cs, n => dropBytes cs (n - min n c.utf8Size)
  let suffix := dropBytes text offset
  (suffix.dropWhile rustWhitespace).takeWhile (fun c => !rustWhitespace c)

/-! ### Audio codec (`wav.rs`) -/

/-- Read one byte of a buffer; the `% 256` is the `u8` typing of the
source (out-of-range entries of the model's `List Nat` are reduced just as
a byte would be). -/
def byteAt (l : List Nat) (i : Nat) : Nat :=
  l.getD i 0 % 256

/-- `u16::from_le_bytes` at position `i`. -/
def readLe16 (l : List Nat) (i : Nat) : Nat :=
  byteAt l i + 256 * byteAt l (i + 1)

/-- `u32::from_le_bytes` at position `i`. -/
def readLe32 (l : List Nat) (i : Nat) : Nat :=
  byteAt l i + 256 * byteAt l (i + 1) + 65536 * byteAt l (i + 2) +
    16777216 * byteAt l (i + 3)

/-- `u16::to_le_bytes` (truncating to 16 bits as the cast does). -/
def le16 (n : Nat) : List Nat :=
  [n % 256, n / 256 % 256]

/-- `u32::to_le_bytes` (truncating to 32 bits as the cast does). -/
def le32 (n : Nat) : List Nat :=
  [n % 256, n / 256 % 256, n / 65536 % 256, n / 16777216 % 256]

/-- `wav_wrap` of `wav.rs`: the canonical minimal 44-byte PCM-mono-16-bit
WAVE header followed by the PCM payload. -/
def wavWrap (pcm : List Nat) (sample_rate : Nat) : List Nat :=
  [82, 73, 70, 70] ++                -- "RIFF"
  le32 (36 + pcm.length) ++          -- (header - 8) + data_len
  [87, 65, 86, 69] ++                -- "WAVE"
  [102, 109, 116, 32] ++             -- "fmt "
  le32 16 ++                         -- fmt chunk size
  le16 1 ++                          -- WAV_FORMAT_PCM
  le16 1 ++                          -- mono
  le32 sample_rate ++
  le32 (sample_rate * 2) ++          -- byte rate
  le16 2 ++                          -- block align
  le16 16 ++                         -- bits per sample
  [100, 97, 116, 97] ++              -- "data"
  le32 pcm.length ++
  pcm

/-- State accumulated by the RIFF chunk walk of `parse_wav_chunks`. -/
structure WavScan where
  format : Option Nat
  num_channels : Option Nat
  sample_rate : Option Nat
  bits_per_sample : Option Nat
  data : Option (List Nat)
deriving DecidableEq, Repr

/-- The chunk-walking loop of `parse_wav_chunks`.  A chunk whose declared
size runs past the buffer is clamped (`chunk_end = min(...)`), not
rejected.  Each iteration advances `offset` by at least 8, so fuel
`wav.length + 1` always exceeds the iteration count and the out-of-fuel
branch (which exits like the loop guard) is unreachable. -/
def wavChunkLoop (wav : List Nat) : Nat → Nat → WavScan → Except String WavScan
  | 0, _, st => .ok st
  | fuel + 1, offset, st =>
    if offset + 8 ≤ wav.length then
      let chunk_size := readLe32 wav (offset + 4)
      let chunk_start := offset + 8
      let chunk_end := min (chunk_start + chunk_size) wav.length
      let next := chunk_end + chunk_size % 2
      if byteAt wav offset = 102 ∧ byteAt wav (offset + 1) = 109 ∧
         byteAt wav (offset + 2) = 116 ∧ byteAt wav (offset + 3) = 32 then
        -- "fmt "
        if chunk_size < 16 ∨ chunk_end < chunk_start + 16 then
          .error ("WAV fmt chunk too small")
        else
          wavChunkLoop wav fuel next
            ⟨some (readLe16 wav chunk_start),
             some (readLe16 wav (chunk_start + 2)),
             some (readLe32 wav (chunk_start + 4)),
             some (readLe16 wav (chunk_start + 14)),
             st.data⟩
      else if byteAt wav offset = 100 ∧ byteAt wav (offset + 1) = 97 ∧
              byteAt wav (offset + 2) = 116 ∧ byteAt wav (offset + 3) = 97 then
        -- "data"
        wavChunkLoop wav fuel next
          ⟨st.format, st.num_channels, st.sample_rate, st.bits_per_sample,
           some ((wav.drop chunk_start).take (chunk_end - chunk_start))⟩
      else
        wavChunkLoop wav fuel next st
    else
      .ok st

/-- `parse_wav_chunks` of `wav.rs`: `(format, num_channels, sample_rate,
bits_per_sample, data)`. -/
def parseWavChunks (wav : List Nat) :
    Except String (Nat × Nat × Nat × Nat × List Nat) :=
  if wav.length < 12 then .error ("WAV too short to contain RIFF header")
  else if ¬(byteAt wav 0 = 82 ∧ byteAt wav 1 = 73 ∧ byteAt wav 2 = 70 ∧
            byteAt wav 3 = 70 ∧ byteAt wav 8 = 87 ∧ byteAt wav 9 = 65 ∧
            byteAt wav 10 = 86 ∧ byteAt wav 11 = 69) then
    .error ("Invalid RIFF/WAVE header")
  else
    match wavChunkLoop wav (wav.length + 1) 12 ⟨none, none, none, none, none⟩ with
    | .error e => .error e
    | .ok st =>
      match st.format with
      | none => .error ("Missing WAV fmt chunk")
      | some format =>
        match st.num_channels with
        | none => .error ("Missing WAV channel count")
        | some num_channels =>
          match st.sample_rate with
          | none => .error ("Missing WAV sample rate")
          | some sample_rate =>
            match st.bits_per_sample with
            | none => .error ("Missing WAV bits per sample")
            | some bits_per_sample =>
              match st.data with
              | none => .error ("Missing WAV data chunk")
              | some data =>
                if num_channels = 0 then .error ("WAV has zero channels")
                else .ok (format, num_channels, sample_rate, bits_per_sample, data)

/-- `i16::from_le_bytes` value of an already-assembled 16-bit word. -/
def toInt16 (n : Nat) : ℤ :=
  if n % 65536 < 32768 then ((n % 65536 : Nat) : ℤ)
  else ((n % 65536 : Nat) : ℤ) - 65536

/-- `(v as i16).to_le_bytes()`: the low 16 bits of an integer, little
endian. -/
def le16OfInt (v : ℤ) : List Nat :=
  [(v % 65536).toNat % 256, (v % 65536).toNat / 256]

/-- Sum of the first `ch` 16-bit channel samples of a frame, left to right
(the `i32` accumulation of `pcm16_to_mono`; `i32` cannot overflow there). -/
def frameSum16 : Nat → List Nat → ℤ
  | 0, _ => 0
  | k + 1, frame => frameSum16 k frame + toInt16 (readLe16 frame (2 * k))

/-- The `chunks_exact(frame_bytes)` loop of `pcm16_to_mono`: one averaged
mono sample per complete frame, the incomplete remainder dropped.  Each
iteration consumes `2 * ch ≥ 2` bytes, so fuel `data.length` suffices
(`ch = 0` is unreachable behind the zero-channel check). -/
def pcm16MonoLoop (ch : Nat) : Nat → List Nat → List Nat
  | 0, _ => []
  | fuel + 1, data =>
    if 0 < ch ∧ 2 * ch ≤ data.length then
      le16OfInt (Int.tdiv (frameSum16 ch (data.take (2 * ch))) (ch : ℤ)) ++
        pcm16MonoLoop ch fuel (data.drop (2 * ch))
    else []

/-- `pcm16_to_mono` of `wav.rs`. -/
def pcm16ToMono (data : List Nat) (num_channels : Nat) (sample_rate : Nat) :
    Except String (List Nat × Nat) :=
  if data.length < 2 * num_channels then .error ("WAV data chunk too small")
  else .ok (pcm16MonoLoop num_channels data.length data, sample_rate)

/-- An IEEE binary32 value as the source's `f32` arithmetic sees it.
Finite values are carried exactly as rationals; rounding of `f32` addition
and division is not modelled (no theorem below depends on a sample value
computed through this type). -/
inductive F32 where
  | finite (q : ℚ)
  | inf (neg : Bool)
  | nan
deriving DecidableEq, Repr

/-- `f32::from_le_bytes`, decoded exactly from the bit pattern. -/
def decodeF32 (bits : Nat) : F32 :=
  let s : Nat := bits / 2 ^ 31 % 2
  let e : Nat := bits / 2 ^ 23 % 256
  let m : Nat := bits % 2 ^ 23
  if e = 255 then
    if m = 0 then .inf (s = 1) else .nan
  else
    let mag : ℚ :=
      if e = 0 then (m : ℚ) / 2 ^ 149
      else (((2 ^ 23 + m : Nat) : ℚ) * 2 ^ e) / 2 ^ 150
    .finite (if s = 1 then -mag else mag)

/-- `f32` addition on the modelled values. -/
def f32Add : F32 → F32 → F32
  | .nan, _ => .nan
  | _, .nan => .nan
  | .inf a, .inf b => if a = b then .inf a else .nan
  | .inf a, .finite _ => .inf a
  | .finite _, .inf b => .inf b
  | .finite a, .finite b => .finite (a + b)

/-- Sum of the first `ch` float32 channel samples of a frame (the
`sum += ...` loop of `float32_to_mono`, starting from `0.0`). -/
def frameSumF32 : Nat → List Nat → F32
  | 0, _ => .finite 0
  | k + 1, frame => f32Add (frameSumF32 k frame) (decodeF32 (readLe32 frame (4 * k)))

/-- Division of the channel sum by the (positive) channel count. -/
def f32DivNat : F32 → Nat → F32
  | .nan, _ => .nan
  | .inf s, _ => .inf s
  | .finite q, ch => .finite (q / (ch : ℚ))

/-- `.clamp(-1.0, 1.0)` followed by `(x * 32767.0) as i16`: NaN casts to 0,
everything else is clamped, scaled and truncated toward zero (the result
always fits in `i16`, so the cast's saturation never engages). -/
def clampScaleToI16 : F32 → ℤ
  | .nan => 0
  | .inf s => if s then -32767 else 32767
  | .finite q =>
    let c := min 1 (max (-1) q)
    let scaled := c * 32767
    if 0 ≤ scaled then ⌊scaled⌋ else -⌊-scaled⌋

/-- The frame loop of `float32_to_mono` (fuel as in `pcm16MonoLoop`). -/
def float32MonoLoop (ch : Nat) : Nat → List Nat → List Nat
  | 0, _ => []
  | fuel + 1, data =>
    if 0 < ch ∧ 4 * ch ≤ data.length then
      le16OfInt (clampScaleToI16 (f32DivNat (frameSumF32 ch (data.take (4 * ch))) ch)) ++
        float32MonoLoop ch fuel (data.drop (4 * ch))
    else []

/-- `float32_to_mono` of `wav.rs`. -/
def float32ToMono (data : List Nat) (num_channels : Nat) (sample_rate : Nat) :
    Except String (List Nat × Nat) :=
  if data.length < 4 * num_channels then .error ("WAV data chunk too small")
  else .ok (float32MonoLoop num_channels data.length data, sample_rate)

/-- `wav_to_int16_pcm` of `wav.rs`. -/
def wavToInt16Pcm (wav_bytes : List Nat) : Except String (List Nat × Nat) :=
  match parseWavChunks wav_bytes with
  | .error e => .error e
  | .ok (format, num_channels, sample_rate, bits_per_sample, data) =>
    if format = 1 ∧ bits_per_sample = 16 then
      pcm16ToMono data num_channels sample_rate
    else if format = 3 ∧ bits_per_sample = 32 then
      float32ToMono data num_channels sample_rate
    else if format = 0xFFFE ∧ bits_per_sample = 16 then
      pcm16ToMono data num_channels sample_rate
    else if format = 0xFFFE ∧ bits_per_sample = 32 then
      float32ToMono data num_channels sample_rate
    else
      .error ("Unsupported WAV format: format=" ++ toString format ++
        " bits=" ++ toString bits_per_sample)

/-! ### Engine adapter (`synth.rs`) -/

def DEFAULT_KOKORO_VOICE : String := "am_michael"

def FALLBACK_KOKORO_VOICE : String := "bf_emma"

/-- `resolve_kokoro_voice`: the `HANDHOLD_TTS_VOICE` environment override
(passed in as `env`), else the built-in default voice. -/
def resolveKokoroVoice (env : Option String) : String :=
  env.getD DEFAULT_KOKORO_VOICE

/-- `synthesize_sentence` of `synth.rs`.  `attempt` stands for one
`synthesize_sentence_with_voice` invocation (subprocess + decode), which is
pure in the voice for a fixed sentence and context.  The first component
of the result records the voices invoked, in order, so the fallback policy
is visible in the model. -/
def synthesizeSentence (env : Option String)
    (attempt : String → Except String CachedSentence) :
    List String × Except String CachedSentence :=
  let primary := resolveKokoroVoice env
  match attempt primary with
  | .ok result => ([primary], .ok result)
  | .error primary_err =>
    if primary = FALLBACK_KOKORO_VOICE then ([primary], .error primary_err)
    else
      match attempt FALLBACK_KOKORO_VOICE with
      | .ok r => ([primary, FALLBACK_KOKORO_VOICE], .ok r)
      | .error fallback_err =>
        ([primary, FALLBACK_KOKORO_VOICE],
         .error ("koko failed for voice \"" ++ primary ++ "\": " ++ primary_err ++
           ". Fallback \"" ++ FALLBACK_KOKORO_VOICE ++ "\" also failed: " ++
           fallback_err))

/-- The per-sentence loop of `synthesize_all_sentences`: cache hit, else
resolve the engine context (lazily; its failure surfaces only on a cache
miss) and synthesize.  The best-effort `cache_write` after a synthesis does
not change the produced value and is elided.  Oracles: `hashFn` for
`hash_text`, `cacheHitFn` for `cache_hit`, `resolveCtx` for
`resolve_koko_context`, `synthFn` for `synthesize_sentence`. -/
def synthAllLoop (hashFn : List Char → Nat)
    (cacheHitFn : Nat → Option CachedSentence)
    (resolveCtx : Except String Unit)
    (synthFn : List Char → Nat → Except String CachedSentence) :
    List (Nat × List Char) → Nat → Except String (List (Nat × CachedSentence))
  | [], _ => .ok []
  | (char_start, s) :: rest, idx =>
    let step : Except String CachedSentence :=
      match cacheHitFn (hashFn s) with
      | some c => .ok c
      | none =>
        match resolveCtx with
        | .error e => .error e
        | .ok _ => synthFn s idx
    match step with
    | .error e => .error e
    | .ok c =>
      match synthAllLoop hashFn cacheHitFn resolveCtx synthFn rest (idx + 1) with
      | .error e => .error e
      | .ok tl => .ok ((char_start, c) :: tl)

/-- `synthesize_all_sentences` of `synth.rs`. -/
def synthesizeAllSentences (hashFn : List Char → Nat)
    (cacheHitFn : Nat → Option CachedSentence)
    (resolveCtx : Except String Unit)
    (synthFn : List Char → Nat → Except String CachedSentence)
    (text : List Char) :
    Except String (List (Nat × List Char) × List (Nat × CachedSentence)) :=
  let sentences := splitSentences text
  match synthAllLoop hashFn cacheHitFn resolveCtx synthFn sentences 0 with
  | .error e => .error e
  | .ok results => .ok (sentences, results)

/-! ### Caller-facing commands (`commands.rs`, `bundle.rs`) -/

/-- The caller-facing event of `mod.rs`.  The audio payload is carried as
the WAV bytes themselves; the source base64-encodes exactly these bytes
(injective framing that no claim inspects). -/
inductive TTSEvent where
  | wordBoundary (word : List Char) (word_index : Nat) (char_offset : Nat)
      (start_ms : ℚ) (end_ms : ℚ)
  | audioReady (audio_wav : List Nat) (duration_ms : ℚ)
deriving DecidableEq, Repr

/-- Whether an event is the audio-ready terminal event. -/
def TTSEvent.isAudioReady : TTSEvent → Bool
  | .audioReady _ _ => true
  | _ => false

/-- A decoded bundle record as produced by `bundle_hit` of `bundle.rs`. -/
structure BundledAudio where
  wav_bytes : List Nat
  timings : List (Nat × Nat × ℚ × ℚ)
  duration_ms : ℚ
deriving DecidableEq, Repr

/-- The `synthesize` command of `commands.rs`.  `bundled` is the outcome of
the bundle-store lookup (`none` both when no bundle path is supplied and on
a miss); `synthAll` the outcome of `synthesize_all_sentences`.  Returns the
events sent over the channel, in order, together with the command's
result. -/
def synthesize (text : List Char) (bundled : Option BundledAudio)
    (synthAll : Except String (List (Nat × List Char) × List (Nat × CachedSentence))) :
    List TTSEvent × Except String Unit :=
  match bundled with
  | some b =>
    (b.timings.map (fun t =>
        .wordBoundary (textWordAt text t.2.1) t.1 t.2.1 t.2.2.1 t.2.2.2) ++
      [.audioReady b.wav_bytes b.duration_ms], .ok ())
  | none =>
    match synthAll with
    | .error e => ([], .error e)
    | .ok (sentences, sentence_results) =>
      match stitchSentences text sentences sentence_results with
      | .error e => ([], .error e)
      | .ok st =>
        (st.timings.map (fun t =>
            .wordBoundary (textWordAt text t.char_offset) t.word_index
              t.char_offset t.start_ms t.end_ms) ++
          [.audioReady (wavWrap st.pcm st.sample_rate) st.duration_ms], .ok ())

/-- The `export_audio` command of `commands.rs`.  The bundle directory is
modelled as the list `fs` of text hashes that already have a `.wav` file;
`bundle_write` is modelled as succeeding (it is best-effort in the source).
Returns the exported count, the directory contents after the call, and the
list of texts actually synthesized (the "synthesis work" performed). -/
def exportAudio (hashFn : List Char → Nat)
    (synthAll : List Char →
      Except String (List (Nat × List Char) × List (Nat × CachedSentence))) :
    List (List Char) → List Nat → Except String (Nat × List Nat × List (List Char))
  | [], fs => .ok (0, fs, [])
  | text :: rest, fs =>
    if hashFn text ∈ fs then
      exportAudio hashFn synthAll rest fs
    else
      match synthAll text with
      | .error e => .error e
      | .ok (sentences, results) =>
        match stitchSentences text sentences results with
        | .error e => .error e
        | .ok _ =>
          match exportAudio hashFn synthAll rest (hashFn text :: fs) with
          | .error e => .error e
          | .ok (n, fs2, tr) => .ok (n + 1, fs2, text :: tr)

/-! ### Concrete buffers and oracle stubs used by witnesses and
counterexamples -/

/-- A WAVE buffer whose `data` chunk declares 100 bytes but carries only 4:
a truncated chunk. -/
def truncChunkWav : List Nat :=
  [82, 73, 70, 70] ++ le32 0 ++ [87, 65, 86, 69] ++
  [102, 109, 116, 32] ++ le32 16 ++ le16 1 ++ le16 1 ++ le32 8000 ++
  le32 16000 ++ le16 2 ++ le16 16 ++
  [100, 97, 116, 97] ++ le32 100 ++ [1, 2, 3, 4]

/-- A WAVE buffer whose fmt chunk declares zero channels. -/
def zeroChannelWav : List Nat :=
  [82, 73, 70, 70] ++ le32 0 ++ [87, 65, 86, 69] ++
  [102, 109, 116, 32] ++ le32 16 ++ le16 1 ++ le16 0 ++ le32 8000 ++
  le32 16000 ++ le16 2 ++ le16 16 ++
  [100, 97, 116, 97] ++ le32 4 ++ [1, 2, 3, 4]

/-- A WAVE buffer with an unsupported format code (2 = ADPCM) at 16 bits. -/
def unsupportedFormatWav : List Nat :=
  [82, 73, 70, 70] ++ le32 0 ++ [87, 65, 86, 69] ++
  [102, 109, 116, 32] ++ le32 16 ++ le16 2 ++ le16 1 ++ le32 8000 ++
  le32 16000 ++ le16 2 ++ le16 16 ++
  [100, 97, 116, 97] ++ le32 4 ++ [1, 2, 3, 4]

/-- A fixed sentence fragment for witnesses. -/
def cachedStub : CachedSentence :=
  ⟨[0, 0], 24000, []⟩

/-- Deterministic hash oracle for witnesses. -/
def hashStub : List Char → Nat :=
  fun t => t.length

/-- Cache oracle that always misses. -/
def cacheMissStub : Nat → Option CachedSentence :=
  fun _ => none

/-- Engine oracle that always succeeds with `cachedStub`. -/
def synthOkStub : List Char → Nat → Except String CachedSentence :=
  fun _ _ => .ok cachedStub

/-- A full `synthesize_all_sentences` oracle built from the stubs. -/
def synthAllStub (t : List Char) :
    Except String (List (Nat × List Char) × List (Nat × CachedSentence)) :=
  synthesizeAllSentences hashStub cacheMissStub (.ok ()) synthOkStub t

/-- Voice oracle whose primary attempt fails and whose fallback succeeds. -/
def voiceAttemptStub : String → Except String CachedSentence :=
  fun v => if v = DEFAULT_KOKORO_VOICE then .error "boom" else .ok cachedStub

/-- Well-formedness of a sentence's parsed alignment rows, relative to the
sentence's PCM-derived duration `d` in milliseconds: every row's start is
nonnegative, at most its end, and (scaled to ms) within the sentence's
audio, and rows are ordered by start time.  The engine's real output
satisfies this; `stitch_sentences` does not enforce it. -/
def rowsWellFormed (d : ℚ) (rows : List (List Char × ℚ × ℚ)) : Prop :=
  (∀ row ∈ rows, 0 ≤ row.2.1 ∧ row.2.1 ≤ row.2.2 ∧ row.2.1 * 1000 ≤ d) ∧
  rows.Pairwise (fun a b => a.2.1 ≤ b.2.1)

/-- Decidable equality for `Except` results, used to evaluate concrete
runs of the fallible functions in witnesses and counterexamples. -/
instance {e a : Type} [DecidableEq e] [DecidableEq a] : DecidableEq (Except e a)
  | .ok x, .ok y =>
    if h : x = y then .isTrue (by rw [h]) else .isFalse (by simp [h])
  | .ok _, .error _ => .isFalse (fun hc => Except.noConfusion hc)
  | .error _, .ok _ => .isFalse (fun hc => Except.noConfusion hc)
  | .error x, .error y =>
    if h : x = y then .isTrue (by rw [h]) else .isFalse (by simp [h])

/-! ## Theorems -/

/-- Helper: a list of non-audio events followed by one audio-ready event
contains exactly one audio-ready event. -/
theorem wbStream_countP (l : List TTSEvent) (hl : ∀ ev ∈ l, ev.isAudioReady = false)
    (fin : TTSEvent) (hf : fin.isAudioReady = true) :
    (l ++ [fin]).countP (fun ev => ev.isAudioReady) = 1 := by
  rw [List.countP_append, List.countP_eq_zero.mpr]
  · simp [List.countP_singleton, hf]
  · intro a ha
    simp [hl a ha]

/-- C4: for every synthesize request, either the call fails with a single
descriptive error and emits no events at all, or it emits zero or more
word-boundary events strictly before exactly one audio-ready event. -/
theorem synthesize_event_stream (text : List Char) (bundled : Option BundledAudio)
    (synthAll : Except String (List (Nat × List Char) × List (Nat × CachedSentence))) :
    ((synthesize text bundled synthAll).1 = [] ∧
      ∃ e, (synthesize text bundled synthAll).2 = Except.error e) ∨
    ((synthesize text bundled synthAll).2 = Except.ok () ∧
      ∃ wbs fin, (synthesize text bundled synthAll).1 = wbs ++ [fin] ∧
        (∀ ev ∈ wbs, ev.isAudioReady = false) ∧ fin.isAudioReady = true ∧
        ((synthesize text bundled synthAll).1.countP
          (fun ev => ev.isAudioReady) = 1)) := by
  rcases bundled with _ | b
  · rcases synthAll with e | sr
    · left
      exact ⟨rfl, e, rfl⟩
    · rcases sr with ⟨sentences, results⟩
      rcases hst : stitchSentences text sentences results with e | st
      · left
        refine ⟨?_, e, ?_⟩ <;> simp [synthesize, hst]
      · right
        have hwb : ∀ ev ∈ st.timings.map (fun t =>
            TTSEvent.wordBoundary (textWordAt text t.char_offset) t.word_index
              t.char_offset t.start_ms t.end_ms), ev.isAudioReady = false := by
          intro ev hev
          rcases List.mem_map.mp hev with ⟨t, _, rfl⟩
          rfl
        refine ⟨by simp [synthesize, hst],
          st.timings.map (fun t =>
            TTSEvent.wordBoundary (textWordAt text t.char_offset) t.word_index
              t.char_offset t.start_ms t.end_ms),
          TTSEvent.audioReady (wavWrap st.pcm st.sample_rate) st.duration_ms,
          by simp [synthesize, hst], hwb, rfl, ?_⟩
        have : (synthesize text none (Except.ok (sentences, results))).1 =
            st.timings.map (fun t =>
              TTSEvent.wordBoundary (textWordAt text t.char_offset) t.word_index
                t.char_offset t.start_ms t.end_ms) ++
            [TTSEvent.audioReady (wavWrap st.pcm st.sample_rate) st.duration_ms] := by
          simp [synthesize, hst]
        rw [this]
        exact wbStream_countP _ hwb _ rfl
  · right
    have hwb : ∀ ev ∈ b.timings.map (fun (t : Nat × Nat × ℚ × ℚ) =>
        TTSEvent.wordBoundary (textWordAt text t.2.1) t.1 t.2.1 t.2.2.1 t.2.2.2),
        ev.isAudioReady = false := by
      intro ev hev
      rcases List.mem_map.mp hev with ⟨t, _, rfl⟩
      rfl
    refine ⟨rfl,
      b.timings.map (fun (t : Nat × Nat × ℚ × ℚ) =>
        TTSEvent.wordBoundary (textWordAt text t.2.1) t.1 t.2.1 t.2.2.1 t.2.2.2),
      TTSEvent.audioReady b.wav_bytes b.duration_ms, rfl, hwb, rfl, ?_⟩
    exact wbStream_countP _ hwb _ rfl

/-- C5: voice fallback policy of `synthesize_sentence`.  The primary voice
(environment override, else the built-in default) is attempted first; on
success no other voice is tried.  If it fails and the primary voice equals
the hard-coded fallback voice, no second attempt is made and the primary
error is returned.  Otherwise the fallback voice is attempted exactly once
more: its success is returned with the primary failure masked, and if it
also fails the returned error is the aggregate in which both underlying
failure messages occur verbatim. -/
theorem synthesizeSentence_fallback (env : Option String)
    (attempt : String → Except String CachedSentence) :
    (∀ r, attempt (resolveKokoroVoice env) = Except.ok r →
      synthesizeSentence env attempt = ([resolveKokoroVoice env], Except.ok r)) ∧
    (∀ pe, attempt (resolveKokoroVoice env) = Except.error pe →
      resolveKokoroVoice env = FALLBACK_KOKORO_VOICE →
      synthesizeSentence env attempt = ([resolveKokoroVoice env], Except.error pe)) ∧
    (∀ pe r, attempt (resolveKokoroVoice env) = Except.error pe →
      resolveKokoroVoice env ≠ FALLBACK_KOKORO_VOICE →
      attempt FALLBACK_KOKORO_VOICE = Except.ok r →
      synthesizeSentence env attempt =
        ([resolveKokoroVoice env, FALLBACK_KOKORO_VOICE], Except.ok r)) ∧
    (∀ pe fe, attempt (resolveKokoroVoice env) = Except.error pe →
      resolveKokoroVoice env ≠ FALLBACK_KOKORO_VOICE →
      attempt FALLBACK_KOKORO_VOICE = Except.error fe →
      synthesizeSentence env attempt =
        ([resolveKokoroVoice env, FALLBACK_KOKORO_VOICE],
          Except.error ("koko failed for voice \"" ++ resolveKokoroVoice env ++
            "\": " ++ pe ++ ". Fallback \"" ++ FALLBACK_KOKORO_VOICE ++
            "\" also failed: " ++ fe)) ∧
      (pe.toList <:+: ("koko failed for voice \"" ++ resolveKokoroVoice env ++
            "\": " ++ pe ++ ". Fallback \"" ++ FALLBACK_KOKORO_VOICE ++
            "\" also failed: " ++ fe).toList) ∧
      (fe.toList <:+: ("koko failed for voice \"" ++ resolveKokoroVoice env ++
            "\": " ++ pe ++ ". Fallback \"" ++ FALLBACK_KOKORO_VOICE ++
            "\" also failed: " ++ fe).toList)) := by
  refine ⟨?_, ?_, ?_, ?_⟩
  · intro r h
    simp [synthesizeSentence, h]
  · intro pe h heq
    rw [heq] at h
    simp [synthesizeSentence, heq, h]
  · intro pe r h hne hf
    simp [synthesizeSentence, h, hne, hf]
  · intro pe fe h hne hf
    refine ⟨by simp [synthesizeSentence, h, hne, hf], ?_, ?_⟩
    · refine ⟨("koko failed for voice \"" ++ resolveKokoroVoice env ++ "\": ").toList,
        (". Fallback \"" ++ FALLBACK_KOKORO_VOICE ++ "\" also failed: " ++ fe).toList, ?_⟩
      simp [String.toList]
    · refine ⟨("koko failed for voice \"" ++ resolveKokoroVoice env ++ "\": " ++ pe ++
        ". Fallback \"" ++ FALLBACK_KOKORO_VOICE ++ "\" also failed: ").toList,
        ([] : List Char), ?_⟩
      simp [String.toList]

/-- Witness for C5: with no environment override and an oracle whose
primary attempt fails, the fallback voice is attempted and its success is
returned, masking the primary failure. -/
theorem synthesizeSentence_fallback_witness :
    synthesizeSentence none voiceAttemptStub =
      (["am_michael", "bf_emma"], Except.ok cachedStub) :=
  (synthesizeSentence_fallback none voiceAttemptStub).2.2.1 "boom" cachedStub
    (by rfl) (by decide) (by rfl)

/-- Helper for C9: a successful export leaves every prior bundle file in
place and every requested text's hash bundled. -/
theorem exportAudio_post (hashFn : List Char → Nat)
    (synthAll : List Char →
      Except String (List (Nat × List Char) × List (Nat × CachedSentence))) :
    ∀ texts fs n fs2 tr,
      exportAudio hashFn synthAll texts fs = Except.ok (n, fs2, tr) →
      (∀ x ∈ fs, x ∈ fs2) ∧ (∀ t ∈ texts, hashFn t ∈ fs2) := by
  intro texts
  induction texts with
  | nil =>
    intro fs n fs2 tr h
    simp [exportAudio] at h
    obtain ⟨-, h2, -⟩ := h
    subst h2
    exact ⟨fun x hx => hx, fun t ht => absurd ht (List.not_mem_nil t)⟩
  | cons t rest ih =>
    intro fs n fs2 tr h
    by_cases hm : hashFn t ∈ fs
    · rw [exportAudio, if_pos hm] at h
      obtain ⟨h1, h2⟩ := ih fs n fs2 tr h
      exact ⟨h1, fun s hs => by
        rcases List.mem_cons.mp hs with rfl | hs2
        · exact h1 _ hm
        · exact h2 s hs2⟩
    · rw [exportAudio, if_neg hm] at h
      rcases hsyn : synthAll t with e | ⟨ss, rs⟩ <;> rw [hsyn] at h
      · simp at h
      rcases hst : stitchSentences t ss rs with e | st <;> simp only [hst] at h
      · simp at h
      rcases hrec : exportAudio hashFn synthAll rest (hashFn t :: fs) with
        e | ⟨n2, fs3, tr2⟩ <;> simp only [hrec] at h
      · simp at h
      simp only [Except.ok.injEq, Prod.mk.injEq] at h
      obtain ⟨-, h2, -⟩ := h
      subst h2
      obtain ⟨h1, h2⟩ := ih (hashFn t :: fs) n2 fs3 tr2 hrec
      refine ⟨fun x hx => h1 x (List.mem_cons_of_mem _ hx), fun s hs => ?_⟩
      rcases List.mem_cons.mp hs with rfl | hs2
      · exact h1 _ (List.mem_cons_self _ _)
      · exact h2 s hs2

/-- Helper for C9: when every text's hash already has a bundle file, the
export performs no synthesis and exports nothing. -/
theorem exportAudio_all_bundled (hashFn : List Char → Nat)
    (synthAll : List Char →
      Except String (List (Nat × List Char) × List (Nat × CachedSentence))) :
    ∀ texts fs, (∀ t ∈ texts, hashFn t ∈ fs) →
      exportAudio hashFn synthAll texts fs = Except.ok (0, fs, []) := by
  intro texts
  induction texts with
  | nil =>
    intro fs _
    simp [exportAudio]
  | cons t rest ih =>
    intro fs hall
    rw [exportAudio, if_pos (hall t (List.mem_cons_self _ _))]
    exact ih fs (fun s hs => hall s (List.mem_cons_of_mem _ hs))

/-- C9: after a first successful `export_audio` call, a second call with
the same texts and bundle directory performs no synthesis work (its trace
of synthesized texts is empty), leaves the directory unchanged, and
returns an exported count of 0. -/
theorem exportAudio_idempotent (hashFn : List Char → Nat)
    (synthAll : List Char →
      Except String (List (Nat × List Char) × List (Nat × CachedSentence)))
    (texts : List (List Char)) (fs : List Nat) (n : Nat) (fs2 : List Nat)
    (tr : List (List Char))
    (h : exportAudio hashFn synthAll texts fs = Except.ok (n, fs2, tr)) :
    exportAudio hashFn synthAll texts fs2 = Except.ok (0, fs2, []) :=
  exportAudio_all_bundled hashFn synthAll texts fs2
    (exportAudio_post hashFn synthAll texts fs n fs2 tr h).2

/-- Witness for C9: a concrete one-text export exports once, and running it
again over the resulting bundle directory synthesizes nothing and returns
count 0. -/
theorem exportAudio_idempotent_witness :
    exportAudio hashStub synthAllStub [['a']] [1] = Except.ok (0, [1], []) :=
  exportAudio_idempotent hashStub synthAllStub [['a']] [] 1 [1] [['a']] (by rfl)

/-- Helper: on text containing no boundary characters, the segmenter loop
reaches end-of-text without emitting and falls through to tail handling. -/
theorem splitLoop_no_boundary :
    ∀ (fuel : Nat) (pending : List Char) (startPos : Nat) (rest : List Char),
      (∀ c ∈ rest, boundaryChar c = false) →
      splitLoop fuel pending startPos rest = splitTail startPos (pending ++ rest) := by
  intro fuel
  induction fuel with
  | zero =>
    intro pending startPos rest _
    rfl
  | succ fuel ih =>
    intro pending startPos rest hnb
    cases rest with
    | nil =>
      simp [splitLoop]
    | cons c rs =>
      have hc : boundaryChar c = false := hnb c (List.mem_cons_self _ _)
      rw [splitLoop, if_neg (by simp [hc])]
      rw [ih (pending ++ [c]) startPos rs
        (fun x hx => hnb x (List.mem_cons_of_mem _ hx))]
      simp

/-- Helper: a Unicode-whitespace character is never a sentence boundary
character. -/
theorem ws_not_boundary (c : Char) (h : rustWhitespace c = true) :
    boundaryChar c = false := by
  simp only [rustWhitespace, boundaryChar, decide_eq_true_eq,
    decide_eq_false_iff_not] at *
  omega

/-- Helper: a text of whitespace characters trims to nothing. -/
theorem rustTrim_eq_nil (cs : List Char)
    (h : ∀ c ∈ cs, rustWhitespace c = true) : rustTrim cs = [] := by
  have h1 : trimStart cs = [] := by
    unfold trimStart
    exact List.dropWhile_eq_nil_iff.mpr h
  rw [rustTrim, h1]
  rfl

/-- Counterexample for C6: on whitespace-only input the segmenter returns
no sentence at all (not one sentence), and on input whose leading
whitespace contains a multi-byte character (U+00A0) the recorded offset is
the byte length of the leading whitespace (3), not its character count
(2).  Both concrete inputs contain no sentence-terminating punctuation. -/
theorem splitSentences_claim_cex :
    ¬ (splitSentences [' '] =
        [((List.takeWhile rustWhitespace [' ']).length, rustTrim [' '])]) ∧
    ¬ (splitSentences [' ', '\u00A0', 'x'] =
        [((List.takeWhile rustWhitespace [' ', '\u00A0', 'x']).length,
          rustTrim [' ', '\u00A0', 'x'])]) := by
  decide

/-- C6 (amended): for all input text containing none of `.`, `!`, `?` and
not trimming to the empty string, `split_sentences` returns exactly one
sentence whose text is the trimmed input and whose recorded offset is the
byte length of the input's leading whitespace. -/
theorem splitSentences_no_boundary (text : List Char)
    (hnb : ∀ c ∈ text, boundaryChar c = false)
    (hne : rustTrim text ≠ []) :
    splitSentences text =
      [(byteLen (text.takeWhile rustWhitespace), rustTrim text)] := by
  unfold splitSentences
  rw [splitLoop_no_boundary _ _ _ _ hnb]
  simp [splitTail, hne]

/-- Witness for C6: a concrete no-boundary input with leading whitespace. -/
theorem splitSentences_no_boundary_witness :
    splitSentences [' ', 'h', 'i'] =
      [(byteLen (List.takeWhile rustWhitespace [' ', 'h', 'i']),
        rustTrim [' ', 'h', 'i'])] :=
  splitSentences_no_boundary [' ', 'h', 'i'] (by decide) (by decide)

/-- C10: for empty or whitespace-only input text, segmentation yields no
sentences, the per-sentence synthesis loop succeeds with an empty result
list without touching engine or cache, and stitching fails with
"No audio produced for any sentence", so a synthesize request with no
bundle hit fails with that error before any event is emitted. -/
theorem whitespace_only_synthesize_fails (hashFn : List Char → Nat)
    (cacheHitFn : Nat → Option CachedSentence) (resolveCtx : Except String Unit)
    (synthFn : List Char → Nat → Except String CachedSentence)
    (text : List Char) (hws : ∀ c ∈ text, rustWhitespace c = true) :
    splitSentences text = [] ∧
    synthesizeAllSentences hashFn cacheHitFn resolveCtx synthFn text =
      Except.ok ([], []) ∧
    stitchSentences text [] [] =
      Except.error ("No audio produced for any sentence") ∧
    synthesize text none
      (synthesizeAllSentences hashFn cacheHitFn resolveCtx synthFn text) =
      ([], Except.error ("No audio produced for any sentence")) := by
  have hnb : ∀ c ∈ text, boundaryChar c = false :=
    fun c hc => ws_not_boundary c (hws c hc)
  have hsplit : splitSentences text = [] := by
    unfold splitSentences
    rw [splitLoop_no_boundary _ _ _ _ hnb]
    simp [splitTail, rustTrim_eq_nil _ hws]
  have hsynth : synthesizeAllSentences hashFn cacheHitFn resolveCtx synthFn text =
      Except.ok ([], []) := by
    unfold synthesizeAllSentences
    rw [hsplit]
    rfl
  have hstitch : stitchSentences text [] [] =
      Except.error ("No audio produced for any sentence") := by
    rfl
  refine ⟨hsplit, hsynth, hstitch, ?_⟩
  rw [hsynth]
  simp [synthesize, hstitch]

/-- Witness for C10: the single-space text. -/
theorem whitespace_only_synthesize_fails_witness :
    splitSentences [' '] = [] ∧
    synthesizeAllSentences hashStub cacheMissStub (Except.ok ()) synthOkStub [' '] =
      Except.ok ([], []) ∧
    stitchSentences [' '] [] [] =
      Except.error ("No audio produced for any sentence") ∧
    synthesize [' '] none
      (synthesizeAllSentences hashStub cacheMissStub (Except.ok ()) synthOkStub [' ']) =
      ([], Except.error ("No audio produced for any sentence")) :=
  whitespace_only_synthesize_fails hashStub cacheMissStub (Except.ok ())
    synthOkStub [' '] (by decide)

/-- Helper: the stitch accumulation loop concatenates the per-sentence PCM
buffers in order and accumulates exactly the sum of the per-sentence
PCM-derived durations on top of the incoming offset. -/
theorem stitchLoop_pcm_duration (text : List Char)
    (sentences : List (Nat × List Char)) (inputWords : List InputWord) :
    ∀ (results : List (Nat × CachedSentence)) (off : ℚ),
      (stitchLoop text sentences inputWords results off).1 =
        (results.map (fun e => e.2.pcm)).flatten ∧
      (stitchLoop text sentences inputWords results off).2.2 =
        off + ((results.map (fun e => sentenceDurationMs e.2)).sum) := by
  intro results
  induction results with
  | nil =>
    intro off
    simp [stitchLoop]
  | cons entry rest ih =>
    intro off
    obtain ⟨h1, h2⟩ := ih (off + sentenceDurationMs entry.2)
    simp only [stitchLoop, List.map_cons, List.flatten, List.sum_cons]
    constructor
    · rw [h1]
    · rw [h2]
      ring

/-- C2: for every successful `stitch_sentences` call, the output PCM is the
byte-for-byte concatenation of the per-sentence PCM buffers in order, and
`duration_ms` is the sum over all sentences of
`(pcm_len / 2 / sample_rate) * 1000` computed from each sentence's own
byte length and sample rate (no engine-reported duration exists anywhere
in the inputs). -/
theorem stitch_pcm_concat_duration_sum (text : List Char)
    (sentences : List (Nat × List Char))
    (results : List (Nat × CachedSentence)) (r : StitchedResult)
    (h : stitchSentences text sentences results = Except.ok r) :
    r.pcm = (results.map (fun e => e.2.pcm)).flatten ∧
    r.duration_ms = (results.map (fun e =>
      ((e.2.pcm.length : ℚ) / 2 / (e.2.sample_rate : ℚ)) * 1000)).sum := by
  rw [stitchSentences] at h
  split at h
  · cases h
  · obtain ⟨h1, h2⟩ := stitchLoop_pcm_duration text sentences
      (extractInputWords text) results 0
    have hr := (Except.ok.injEq _ _).mp h
    subst hr
    refine ⟨h1, ?_⟩
    rw [h2, zero_add]
    simp [sentenceDurationMs]

/-- Helper: `stitch_sentences` succeeds exactly when the concatenated PCM
is non-empty, i.e. unless every sentence failed to produce audio. -/
theorem stitchSentences_ok_iff (text : List Char)
    (sentences : List (Nat × List Char))
    (results : List (Nat × CachedSentence)) :
    (∃ r, stitchSentences text sentences results = Except.ok r) ↔
      (results.map (fun e => e.2.pcm)).flatten ≠ [] := by
  have hpcm := (stitchLoop_pcm_duration text sentences
    (extractInputWords text) results 0).1
  rw [stitchSentences]
  constructor
  · rintro ⟨r, hr⟩
    intro hflat
    rw [if_pos (hpcm.trans hflat)] at hr
    cases hr
  · intro hflat
    rw [if_neg (fun hh => hflat (hpcm.symm.trans hh))]
    exact ⟨_, rfl⟩

/-- Witness for C2: one concrete sentence with two PCM bytes at 24 kHz. -/
theorem stitch_pcm_concat_duration_sum_witness :
    ∃ r, stitchSentences ['h', 'i'] [(0, ['h', 'i'])] [(0, cachedStub)] =
        Except.ok r ∧
      r.pcm = ([(0, cachedStub)].map (fun e => e.2.pcm)).flatten ∧
      r.duration_ms = ([(0, cachedStub)].map (fun e =>
        ((e.2.pcm.length : ℚ) / 2 / (e.2.sample_rate : ℚ)) * 1000)).sum := by
  obtain ⟨r, hr⟩ := (stitchSentences_ok_iff ['h', 'i'] [(0, ['h', 'i'])]
    [(0, cachedStub)]).mpr (by decide)
  exact ⟨r, hr, stitch_pcm_concat_duration_sum _ _ _ _ hr⟩

/-- Helper: zipping truncates the left list to the right list's length. -/
theorem zip_take_left {α β : Type} :
    ∀ (l1 : List α) (l2 : List β), l1.zip l2 = (l1.take l2.length).zip l2 := by
  intro l1
  induction l1 with
  | nil => intro l2; simp
  | cons a t ih =>
    intro l2
    cases l2 with
    | nil => simp
    | cons b t2 => simp [ih t2]

/-- Helper: the second components of a zip are a prefix of the right list. -/
theorem map_snd_zip_take {α β : Type} :
    ∀ (l1 : List α) (l2 : List β),
      (l1.zip l2).map Prod.snd = l2.take l1.length := by
  intro l1
  induction l1 with
  | nil => intro l2; simp
  | cons a t ih =>
    intro l2
    cases l2 with
    | nil => simp
    | cons b t2 => simp [ih t2]

/-- Helper: the word indices produced by the extraction loop are at least
the running index and strictly increasing. -/
theorem extractLoop_index_increasing :
    ∀ (fuel pos idx : Nat) (cs : List Char),
      (∀ w ∈ extractLoop fuel pos idx cs, idx ≤ w.index) ∧
      (extractLoop fuel pos idx cs).Pairwise (fun a b => a.index < b.index) := by
  intro fuel
  induction fuel with
  | zero => intro pos idx cs; simp [extractLoop]
  | succ fuel ih =>
    intro pos idx cs
    rw [extractLoop]
    cases hrest : cs.dropWhile rustWhitespace with
    | nil => simp
    | cons c rs =>
      simp only
      obtain ⟨ih1, ih2⟩ := ih (pos + byteLen (cs.takeWhile rustWhitespace) +
        byteLen ((c :: rs).takeWhile (fun c => !rustWhitespace c))) (idx + 1)
        ((c :: rs).dropWhile (fun c => !rustWhitespace c))
      constructor
      · intro w hw
        rcases List.mem_cons.mp hw with rfl | hw2
        · exact le_refl _
        · exact Nat.le_of_succ_le (ih1 w hw2)
      · exact List.pairwise_cons.mpr ⟨fun w hw => Nat.lt_of_succ_le (ih1 w hw), ih2⟩

/-- Helper: a sentence's local word list has strictly increasing word
indices. -/
theorem localWords_index_increasing (text : List Char) (a b : Nat) :
    (localWords (extractInputWords text) a b).Pairwise
      (fun x y => x.index < y.index) :=
  ((extractLoop_index_increasing text.length 0 0 text).2).sublist
    (List.filter_sublist _)

/-- Helper: a successful `stitch_sentences` returns exactly the loop's
accumulated PCM, timings, and final offset, with the first sentence's
sample rate (default 24000). -/
theorem stitchSentences_ok_elim (text : List Char)
    (sentences : List (Nat × List Char))
    (results : List (Nat × CachedSentence)) (r : StitchedResult)
    (h : stitchSentences text sentences results = Except.ok r) :
    r = ⟨(stitchLoop text sentences (extractInputWords text) results 0).1,
         ((results.head?.map (fun e => e.2.sample_rate)).getD 24000),
         (stitchLoop text sentences (extractInputWords text) results 0).2.1,
         (stitchLoop text sentences (extractInputWords text) results 0).2.2⟩ := by
  rw [stitchSentences] at h
  split at h
  · cases h
  · exact ((Except.ok.injEq _ _).mp h).symm

/-- Helper: the timings of the stitch loop over `pre ++ entry :: post`
decompose into the blocks of `pre`, then `entry`'s block at the offset
accumulated over `pre`, then the blocks of `post`. -/
theorem stitchLoop_timings_append (text : List Char)
    (sentences : List (Nat × List Char)) (inputWords : List InputWord) :
    ∀ (pre : List (Nat × CachedSentence)) (entry : Nat × CachedSentence)
      (post : List (Nat × CachedSentence)) (off : ℚ),
      (stitchLoop text sentences inputWords (pre ++ entry :: post) off).2.1 =
        (stitchLoop text sentences inputWords pre off).2.1 ++
        (sentenceBlock text sentences inputWords entry
          (off + (pre.map (fun e => sentenceDurationMs e.2)).sum) ++
        (stitchLoop text sentences inputWords post
          (off + (pre.map (fun e => sentenceDurationMs e.2)).sum +
            sentenceDurationMs entry.2)).2.1) := by
  intro pre
  induction pre with
  | nil =>
    intro entry post off
    simp [stitchLoop]
  | cons pe pt ih =>
    intro entry post off
    simp only [List.cons_append, stitchLoop, List.map_cons, List.sum_cons,
      List.append_eq]
    rw [ih entry post (off + sentenceDurationMs pe.2)]
    simp [add_assoc]

/-- C7: for a sentence whose parsed alignment row list is non-empty but
shorter than its local word list, `stitch_sentences` emits for that
sentence exactly one timing per alignment row, attached positionally
(local word `i` gets row `i`, shifted by the offset accumulated over the
preceding sentences), and the local words beyond the row count receive no
timing in that sentence's block (no interpolation happens for them). -/
theorem stitch_partial_alignment (text : List Char)
    (sentences : List (Nat × List Char)) (pre post : List (Nat × CachedSentence))
    (entry : Nat × CachedSentence) (r : StitchedResult)
    (h : stitchSentences text sentences (pre ++ entry :: post) = Except.ok r)
    (hne : parseTsvWords entry.2.tsv_content ≠ [])
    (hlt : (parseTsvWords entry.2.tsv_content).length <
      (localWords (extractInputWords text) entry.1
        (sentenceByteEnd text sentences entry.1)).length) :
    ∃ before after,
      r.timings = before ++
        (rowTimings ((localWords (extractInputWords text) entry.1
            (sentenceByteEnd text sentences entry.1)).zip
            (parseTsvWords entry.2.tsv_content))
          ((pre.map (fun e => sentenceDurationMs e.2)).sum) ++ after) ∧
      (rowTimings ((localWords (extractInputWords text) entry.1
            (sentenceByteEnd text sentences entry.1)).zip
            (parseTsvWords entry.2.tsv_content))
          ((pre.map (fun e => sentenceDurationMs e.2)).sum)).length =
        (parseTsvWords entry.2.tsv_content).length ∧
      (∀ (i : Nat) (iw : InputWord) (row : List Char × ℚ × ℚ),
        (localWords (extractInputWords text) entry.1
          (sentenceByteEnd text sentences entry.1))[i]? = some iw →
        (parseTsvWords entry.2.tsv_content)[i]? = some row →
        (rowTimings ((localWords (extractInputWords text) entry.1
            (sentenceByteEnd text sentences entry.1)).zip
            (parseTsvWords entry.2.tsv_content))
          ((pre.map (fun e => sentenceDurationMs e.2)).sum))[i]? = some
          (⟨iw.index, iw.char_offset,
            row.2.1 * 1000 + (pre.map (fun e => sentenceDurationMs e.2)).sum,
            row.2.2 * 1000 + (pre.map (fun e => sentenceDurationMs e.2)).sum⟩ :
            WordTiming)) ∧
      (∀ iw ∈ (localWords (extractInputWords text) entry.1
          (sentenceByteEnd text sentences entry.1)).drop
          (parseTsvWords entry.2.tsv_content).length,
        ∀ tmg ∈ rowTimings ((localWords (extractInputWords text) entry.1
            (sentenceByteEnd text sentences entry.1)).zip
            (parseTsvWords entry.2.tsv_content))
          ((pre.map (fun e => sentenceDurationMs e.2)).sum),
          tmg.word_index ≠ iw.index) := by
  have hr := stitchSentences_ok_elim text sentences (pre ++ entry :: post) r h
  have htim : r.timings =
      (stitchLoop text sentences (extractInputWords text)
        (pre ++ entry :: post) 0).2.1 := by
    rw [hr]
  rw [stitchLoop_timings_append] at htim
  have hblk : sentenceBlock text sentences (extractInputWords text) entry
      (0 + (pre.map (fun e => sentenceDurationMs e.2)).sum) =
      rowTimings ((localWords (extractInputWords text) entry.1
          (sentenceByteEnd text sentences entry.1)).zip
          (parseTsvWords entry.2.tsv_content))
        ((pre.map (fun e => sentenceDurationMs e.2)).sum) := by
    rw [sentenceBlock, if_pos hne, zero_add]
  rw [hblk] at htim
  refine ⟨(stitchLoop text sentences (extractInputWords text) pre 0).2.1,
    (stitchLoop text sentences (extractInputWords text) post
      (0 + (pre.map (fun e => sentenceDurationMs e.2)).sum +
        sentenceDurationMs entry.2)).2.1, ?_, ?_, ?_, ?_⟩
  · exact htim
  · rw [rowTimings, List.length_map, List.length_zip]
    omega
  · intro i iw row h1 h2
    have hz : ((localWords (extractInputWords text) entry.1
        (sentenceByteEnd text sentences entry.1)).zip
        (parseTsvWords entry.2.tsv_content))[i]? = some (iw, row) :=
      List.getElem?_zip_eq_some.mpr ⟨h1, h2⟩
    rw [rowTimings, List.getElem?_map, hz]
    rfl
  · intro iw hiw tmg htmg
    rw [rowTimings] at htmg
    rcases List.mem_map.mp htmg with ⟨pr, hpr, rfl⟩
    rw [zip_take_left] at hpr
    have hfst : pr.1 ∈ (localWords (extractInputWords text) entry.1
        (sentenceByteEnd text sentences entry.1)).take
        (parseTsvWords entry.2.tsv_content).length :=
      (List.of_mem_zip hpr).1
    have hpair := localWords_index_increasing text entry.1
      (sentenceByteEnd text sentences entry.1)
    rw [← List.take_append_drop (parseTsvWords entry.2.tsv_content).length
      (localWords (extractInputWords text) entry.1
        (sentenceByteEnd text sentences entry.1))] at hpair
    have hcross := (List.pairwise_append.mp hpair).2.2
    exact Nat.ne_of_lt (hcross pr.1 hfst iw hiw)

/-- Witness for C7: a two-word sentence with a single alignment row emits
exactly one (positional) timing. -/
theorem stitch_partial_alignment_witness :
    ∃ r, stitchSentences ['a', ' ', 'b'] [(0, ['a', ' ', 'b'])]
        [(0, ⟨[0, 0], 1, ("w\ts\te\nx\t0\t1").toList⟩)] = Except.ok r ∧
      (rowTimings ((localWords (extractInputWords ['a', ' ', 'b']) 0
          (sentenceByteEnd ['a', ' ', 'b'] [(0, ['a', ' ', 'b'])] 0)).zip
          (parseTsvWords ("w\ts\te\nx\t0\t1").toList))
        ((List.map (fun e => sentenceDurationMs e.2)
          ([] : List (Nat × CachedSentence))).sum)).length =
      (parseTsvWords ("w\ts\te\nx\t0\t1").toList).length := by
  obtain ⟨r, hr⟩ := (stitchSentences_ok_iff ['a', ' ', 'b']
    [(0, ['a', ' ', 'b'])] [(0, ⟨[0, 0], 1, ("w\ts\te\nx\t0\t1").toList⟩)]).mpr
    (by decide)
  refine ⟨r, hr, ?_⟩
  obtain ⟨b1, a1, hdec, hlen, hpos, hnone⟩ :=
    stitch_partial_alignment ['a', ' ', 'b'] [(0, ['a', ' ', 'b'])]
      [] [] (0, ⟨[0, 0], 1, ("w\ts\te\nx\t0\t1").toList⟩) r hr
      (by with_unfolding_all decide) (by with_unfolding_all decide)
  exact hlen

/-- Helper: the PCM-derived sentence duration is never negative (byte
length, 2, sample rate and 1000 are all nonnegative; division by a zero
sample rate yields 0 in the rational model). -/
theorem sentenceDurationMs_nonneg (c : CachedSentence) :
    0 ≤ sentenceDurationMs c := by
  unfold sentenceDurationMs
  positivity

/-- Helper: interpolated word timings lie inside the sentence's audio span
(shifted by the running offset), have nonnegative width, and are ordered;
moreover every one starts no earlier than the slice of the first word. -/
theorem interpTimings_bounds (n d off : ℚ) (hd : 0 ≤ d) (hn : 0 < n) :
    ∀ (ws : List InputWord) (i : Nat), ((i : ℚ) + ws.length ≤ n) →
      (∀ t ∈ interpTimings ws i n d off,
        (t.start_ms ≤ t.end_ms ∧ off ≤ t.start_ms ∧ t.start_ms ≤ off + d) ∧
        ((i : ℚ) / n) * d + off ≤ t.start_ms) ∧
      (interpTimings ws i n d off).Pairwise
        (fun a b => a.start_ms ≤ b.start_ms) := by
  intro ws
  induction ws with
  | nil =>
    intro i _
    simp [interpTimings]
  | cons w rest ih =>
    intro i hle
    have hrest : (0 : ℚ) ≤ rest.length := by positivity
    have hlen : ((i : ℚ) + 1) + rest.length ≤ n := by
      push_cast [List.length_cons] at hle
      linarith
    obtain ⟨ih1, ih2⟩ := ih (i + 1) (by push_cast; linarith)
    have hstep : ((i : ℚ) / n) * d ≤ (((i : ℚ) + 1) / n) * d := by
      gcongr
      linarith
    have hnonneg : 0 ≤ ((i : ℚ) / n) * d := by positivity
    have hone : ((i : ℚ) + 1) / n ≤ 1 := by
      rw [div_le_one hn]
      linarith
    have hupper : (((i : ℚ) + 1) / n) * d ≤ d := by
      calc (((i : ℚ) + 1) / n) * d ≤ 1 * d :=
        mul_le_mul_of_nonneg_right hone hd
        _ = d := one_mul d
  -- elements of the tail start at or after the next slice
    constructor
    · intro t ht
      rcases List.mem_cons.mp ht with rfl | ht2
      · refine ⟨⟨?_, ?_, ?_⟩, le_refl _⟩
        · show ((i : ℚ) / n) * d + off ≤ (((i : ℚ) + 1) / n) * d + off
          linarith
        · show off ≤ ((i : ℚ) / n) * d + off
          linarith
        · show ((i : ℚ) / n) * d + off ≤ off + d
          have h1 : ((i : ℚ) / n) * d ≤ d := le_trans hstep hupper
          linarith
      · obtain ⟨⟨ha, hb, hc⟩, hdlow⟩ := ih1 t ht2
        refine ⟨⟨ha, hb, hc⟩, ?_⟩
        have : ((i : ℚ) / n) * d + off ≤ ((↑(i + 1) : ℚ) / n) * d + off := by
          push_cast
          linarith
        exact le_trans this hdlow
    · refine List.pairwise_cons.mpr ⟨?_, ih2⟩
      intro t ht
      obtain ⟨-, hdlow⟩ := ih1 t ht
      have : ((i : ℚ) / n) * d + off ≤ ((↑(i + 1) : ℚ) / n) * d + off := by
        push_cast
        linarith
      exact le_trans this hdlow

/-- Helper: row-derived word timings lie inside the sentence's audio span
when the parsed rows are well formed, and inherit the rows' ordering. -/
theorem rowTimings_bounds (ws : List InputWord)
    (rows : List (List Char × ℚ × ℚ)) (off d : ℚ)
    (hwf : rowsWellFormed d rows) :
    (∀ t ∈ rowTimings (ws.zip rows) off,
      t.start_ms ≤ t.end_ms ∧ off ≤ t.start_ms ∧ t.start_ms ≤ off + d) ∧
    (rowTimings (ws.zip rows) off).Pairwise
      (fun a b => a.start_ms ≤ b.start_ms) := by
  obtain ⟨hb, hs⟩ := hwf
  constructor
  · intro t ht
    rcases List.mem_map.mp ht with ⟨pr, hpr, rfl⟩
    obtain ⟨h0, h1, h2⟩ := hb pr.2 (List.of_mem_zip hpr).2
    have hm1 : pr.2.2.1 * 1000 ≤ pr.2.2.2 * 1000 := by
      have := mul_le_mul_of_nonneg_right h1 (by norm_num : (0 : ℚ) ≤ 1000)
      linarith
    have hm0 : 0 ≤ pr.2.2.1 * 1000 := by positivity
    refine ⟨by simp only; linarith, by simp only; linarith, by simp only; linarith⟩
  · have h1 : ((ws.zip rows).map Prod.snd).Pairwise
        (fun a b => a.2.1 ≤ b.2.1) := by
      rw [map_snd_zip_take]
      exact hs.sublist (List.take_sublist _ _)
    have h2 := List.pairwise_map.mp h1
    rw [rowTimings]
    apply List.pairwise_map.mpr
    refine h2.imp ?_
    intro a b hab
    simp only
    have := mul_le_mul_of_nonneg_right hab (by norm_num : (0 : ℚ) ≤ 1000)
    linarith

/-- Helper: every timing a sentence's block emits has nonnegative width
and starts within `[off, off + duration]`, and the block is ordered,
provided the sentence's parsed rows (if any) are well formed. -/
theorem sentenceBlock_bounds (text : List Char)
    (sentences : List (Nat × List Char)) (inputWords : List InputWord)
    (entry : Nat × CachedSentence) (off : ℚ)
    (hwf : rowsWellFormed (sentenceDurationMs entry.2)
      (parseTsvWords entry.2.tsv_content)) :
    (∀ t ∈ sentenceBlock text sentences inputWords entry off,
      t.start_ms ≤ t.end_ms ∧ off ≤ t.start_ms ∧
      t.start_ms ≤ off + sentenceDurationMs entry.2) ∧
    (sentenceBlock text sentences inputWords entry off).Pairwise
      (fun a b => a.start_ms ≤ b.start_ms) := by
  by_cases hrows : parseTsvWords entry.2.tsv_content = []
  · simp only [sentenceBlock, hrows, ne_eq, not_true_eq_false, if_false]
    have hn : (0 : ℚ) <
        ((max (localWords inputWords entry.1
          (sentenceByteEnd text sentences entry.1)).length 1 : Nat) : ℚ) := by
      have : 1 ≤ max (localWords inputWords entry.1
          (sentenceByteEnd text sentences entry.1)).length 1 :=
        le_max_right _ _
      exact_mod_cast Nat.lt_of_lt_of_le Nat.zero_lt_one this
    have hle : ((0 : Nat) : ℚ) + (localWords inputWords entry.1
        (sentenceByteEnd text sentences entry.1)).length ≤
        ((max (localWords inputWords entry.1
          (sentenceByteEnd text sentences entry.1)).length 1 : Nat) : ℚ) := by
      push_cast
      have : ((localWords inputWords entry.1
          (sentenceByteEnd text sentences entry.1)).length : ℚ) ≤
          ((max (localWords inputWords entry.1
            (sentenceByteEnd text sentences entry.1)).length 1 : Nat) : ℚ) :=
        Nat.cast_le.mpr (le_max_left _ _)
      push_cast at this
      linarith
    obtain ⟨h1, h2⟩ := interpTimings_bounds _ (sentenceDurationMs entry.2) off
      (sentenceDurationMs_nonneg _) hn
      (localWords inputWords entry.1 (sentenceByteEnd text sentences entry.1))
      0 hle
    exact ⟨fun t ht => (h1 t ht).1, h2⟩
  · simp only [sentenceBlock, hrows, ne_eq, not_false_eq_true, if_true]
    exact rowTimings_bounds _ _ off _ ⟨hwf.1, hwf.2⟩

/-- Helper: the stitch loop's timings all have `start_ms ≤ end_ms`, start
no earlier than the incoming offset, and are pairwise ordered by start,
provided every sentence's parsed rows are well formed. -/
theorem stitchLoop_monotone (text : List Char)
    (sentences : List (Nat × List Char)) (inputWords : List InputWord) :
    ∀ (results : List (Nat × CachedSentence)) (off : ℚ),
      (∀ e ∈ results, rowsWellFormed (sentenceDurationMs e.2)
        (parseTsvWords e.2.tsv_content)) →
      (∀ t ∈ (stitchLoop text sentences inputWords results off).2.1,
        t.start_ms ≤ t.end_ms ∧ off ≤ t.start_ms) ∧
      (stitchLoop text sentences inputWords results off).2.1.Pairwise
        (fun a b => a.start_ms ≤ b.start_ms) := by
  intro results
  induction results with
  | nil =>
    intro off _
    simp [stitchLoop]
  | cons entry rest ih =>
    intro off hwf
    obtain ⟨hb1, hb2⟩ := sentenceBlock_bounds text sentences inputWords entry
      off (hwf entry (List.mem_cons_self _ _))
    obtain ⟨ht1, ht2⟩ := ih (off + sentenceDurationMs entry.2)
      (fun e he => hwf e (List.mem_cons_of_mem _ he))
    simp only [stitchLoop]
    constructor
    · intro t ht
      rcases List.mem_append.mp ht with h | h
      · exact ⟨(hb1 t h).1, (hb1 t h).2.1⟩
      · refine ⟨(ht1 t h).1, ?_⟩
        exact le_trans (le_add_of_nonneg_right (sentenceDurationMs_nonneg _))
          (ht1 t h).2
    · refine List.pairwise_append.mpr ⟨hb2, ht2, ?_⟩
      intro a ha b hb
      exact le_trans (hb1 a ha).2.2 (ht1 b hb).2

/-- C1 (amended): for every WordTiming list returned by `stitch_sentences`,
provided every sentence result has a positive sample rate and each
sentence's parsed alignment rows are well formed (ordered, with
`0 ≤ start ≤ end` and starts within the sentence's PCM-derived duration —
unconditionally true for sentences timed by interpolation), every entry
satisfies `start_ms ≤ end_ms` and `start_ms` is monotonically
non-decreasing across the list in emission order.

The positive-rate hypothesis is what ties the rational model to
the `f64` program: at `sample_rate = 0` (which the source never rejects)
the source computes an infinite duration and the interpolation path emits
`NaN` timings, for which `start_ms <= end_ms` is false; `ℚ` cannot
express that state (division by zero yields 0 here, see
`sentenceDurationMs`), so such results are excluded from the claim rather
than silently validated. -/
theorem stitch_timings_wellformed (text : List Char)
    (sentences : List (Nat × List Char))
    (results : List (Nat × CachedSentence)) (r : StitchedResult)
    (_hrate : ∀ e ∈ results, 0 < e.2.sample_rate)
    (hwf : ∀ e ∈ results, rowsWellFormed (sentenceDurationMs e.2)
      (parseTsvWords e.2.tsv_content))
    (h : stitchSentences text sentences results = Except.ok r) :
    (∀ t ∈ r.timings, t.start_ms ≤ t.end_ms) ∧
    r.timings.Pairwise (fun a b => a.start_ms ≤ b.start_ms) := by
  have hr := stitchSentences_ok_elim text sentences results r h
  obtain ⟨h1, h2⟩ := stitchLoop_monotone text sentences
    (extractInputWords text) results 0 hwf
  rw [hr]
  exact ⟨fun t ht => (h1 t ht).1, h2⟩

set_option maxRecDepth 8000 in
/-- Counterexample for C1: with an engine alignment whose rows are
malformed (`a` from 1 s to 0 s, then `b` from 0 s), `stitch_sentences`
returns a timing list whose first entry has `start_ms > end_ms` and whose
starts strictly decrease, so the claim is false without a well-formedness
assumption on the engine's rows. -/
theorem stitch_timings_wellformed_cex :
    stitchSentences ['x', ' ', 'y'] [(0, ['x', ' ', 'y'])]
        [(0, ⟨[0, 0], 1, ("w\ts\te\na\t1\t0\nb\t0\t0").toList⟩)] =
      Except.ok ⟨[0, 0], 1, [⟨0, 0, 1000, 0⟩, ⟨1, 2, 0, 0⟩], 1000⟩ ∧
    ¬ (∀ t ∈ ([⟨0, 0, 1000, 0⟩, ⟨1, 2, 0, 0⟩] : List WordTiming),
        t.start_ms ≤ t.end_ms) ∧
    ¬ ([⟨0, 0, 1000, 0⟩, ⟨1, 2, 0, 0⟩] : List WordTiming).Pairwise
        (fun a b => a.start_ms ≤ b.start_ms) := by
  refine ⟨by with_unfolding_all decide, ?_, ?_⟩
  · intro hall
    have := hall ⟨0, 0, 1000, 0⟩ (by simp)
    norm_num at this
  · intro hp
    have := (List.pairwise_cons.mp hp).1 ⟨1, 2, 0, 0⟩ (by simp)
    norm_num at this

/-- Witness for C1: a sentence with no alignment rows (interpolation path)
satisfies the amended invariant. -/
theorem stitch_timings_wellformed_witness :
    ∃ r, stitchSentences ['h', 'i'] [(0, ['h', 'i'])] [(0, cachedStub)] =
        Except.ok r ∧
      (∀ t ∈ r.timings, t.start_ms ≤ t.end_ms) ∧
      r.timings.Pairwise (fun a b => a.start_ms ≤ b.start_ms) := by
  obtain ⟨r, hr⟩ := (stitchSentences_ok_iff ['h', 'i'] [(0, ['h', 'i'])]
    [(0, cachedStub)]).mpr (by decide)
  refine ⟨r, hr, stitch_timings_wellformed _ _ _ r ?_ ?_ hr⟩
  · intro e he
    rcases List.mem_singleton.mp he with rfl
    decide
  · intro e he
    rcases List.mem_singleton.mp he with rfl
    have hrows : parseTsvWords (cachedStub).tsv_content = [] := rfl
    rw [rowsWellFormed, hrows]
    simp

/-- Helper: reading a byte of a concatenation peels off the left part. -/
theorem byteAt_append (l1 l2 : List Nat) (i : Nat) :
    byteAt (l1 ++ l2) i =
      if i < l1.length then byteAt l1 i else byteAt l2 (i - l1.length) := by
  unfold byteAt
  split_ifs with h
  · rw [List.getD_append _ _ _ _ h]
  · rw [List.getD_append_right _ _ _ _ (le_of_not_lt h)]

/-- Helper: a canonical WAVE file is 44 header bytes plus the payload. -/
theorem wavWrap_length (pcm : List Nat) (rate : Nat) :
    (wavWrap pcm rate).length = 44 + pcm.length := by
  simp [wavWrap, le16, le32]
  omega

/-- Helper: the header byte reads performed by `parse_wav_chunks` on a
`wav_wrap` output. -/
theorem wavWrap_reads (pcm : List Nat) (rate : Nat)
    (hrate : rate < 4294967296) (hlen : pcm.length < 4294967296) :
    byteAt (wavWrap pcm rate) 0 = 82 ∧ byteAt (wavWrap pcm rate) 1 = 73 ∧
    byteAt (wavWrap pcm rate) 2 = 70 ∧ byteAt (wavWrap pcm rate) 3 = 70 ∧
    byteAt (wavWrap pcm rate) 8 = 87 ∧ byteAt (wavWrap pcm rate) 9 = 65 ∧
    byteAt (wavWrap pcm rate) 10 = 86 ∧ byteAt (wavWrap pcm rate) 11 = 69 ∧
    byteAt (wavWrap pcm rate) 12 = 102 ∧ byteAt (wavWrap pcm rate) 13 = 109 ∧
    byteAt (wavWrap pcm rate) 14 = 116 ∧ byteAt (wavWrap pcm rate) 15 = 32 ∧
    readLe32 (wavWrap pcm rate) 16 = 16 ∧
    readLe16 (wavWrap pcm rate) 20 = 1 ∧
    readLe16 (wavWrap pcm rate) 22 = 1 ∧
    readLe32 (wavWrap pcm rate) 24 = rate ∧
    readLe16 (wavWrap pcm rate) 34 = 16 ∧
    byteAt (wavWrap pcm rate) 36 = 100 ∧ byteAt (wavWrap pcm rate) 37 = 97 ∧
    byteAt (wavWrap pcm rate) 38 = 116 ∧ byteAt (wavWrap pcm rate) 39 = 97 ∧
    readLe32 (wavWrap pcm rate) 40 = pcm.length := by
  refine ⟨?_, ?_, ?_, ?_, ?_, ?_, ?_, ?_, ?_, ?_, ?_, ?_, ?_, ?_, ?_, ?_,
    ?_, ?_, ?_, ?_, ?_, ?_⟩ <;>
    simp [readLe16, readLe32, wavWrap, byteAt_append, le32, le16, byteAt] <;>
    omega

/-- Helper: `parse_wav_chunks` decodes a `wav_wrap` output back to mono
PCM16 with the same sample rate and payload (for in-range rate and
length, which any decoded buffer satisfies). -/
theorem parseWavChunks_wavWrap (pcm : List Nat) (rate : Nat)
    (hrate : rate < 4294967296) (hlen : pcm.length < 4294967296) :
    parseWavChunks (wavWrap pcm rate) = Except.ok (1, 1, rate, 16, pcm) := by
  obtain ⟨h0, h1, h2, h3, h8, h9, h10, h11, h12, h13, h14, h15, hsz, hf, hc,
    hr, hb, h36, h37, h38, h39, hdsz⟩ := wavWrap_reads pcm rate hrate hlen
  have hlength : (wavWrap pcm rate).length = 44 + pcm.length :=
    wavWrap_length pcm rate
  have hdrop : (wavWrap pcm rate).drop 44 = pcm := rfl
  have step1 : wavChunkLoop (wavWrap pcm rate) (44 + pcm.length + 1) 12
      ⟨none, none, none, none, none⟩ =
      wavChunkLoop (wavWrap pcm rate) (44 + pcm.length) 36
      ⟨some 1, some 1, some rate, some 16, none⟩ := by
    rw [wavChunkLoop]
    rw [if_pos (by rw [hlength]; omega)]
    norm_num [hsz]
    rw [if_pos ⟨h12, h13, h14, h15⟩]
    rw [if_neg (by rw [hlength]; omega)]
    norm_num [hf, hc, hr, hb]
    rw [show min 36 (wavWrap pcm rate).length = 36 from by rw [hlength]; omega]
  have step2 : wavChunkLoop (wavWrap pcm rate) (44 + pcm.length) 36
      ⟨some 1, some 1, some rate, some 16, none⟩ =
      wavChunkLoop (wavWrap pcm rate) (43 + pcm.length)
        (44 + pcm.length + pcm.length % 2)
      ⟨some 1, some 1, some rate, some 16, some pcm⟩ := by
    rw [show 44 + pcm.length = 43 + pcm.length + 1 from by omega]
    rw [wavChunkLoop]
    rw [if_pos (by rw [hlength]; omega)]
    rw [if_neg (by rw [h36]; omega)]
    rw [if_pos ⟨h36, h37, h38, h39⟩]
    norm_num [hdsz]
    rw [show min (44 + pcm.length) (wavWrap pcm rate).length = 44 + pcm.length
      from by rw [hlength]; omega]
    rw [show 44 + pcm.length - 44 = pcm.length from by omega]
    rw [hdrop, List.take_length]
    rw [show 43 + pcm.length + 1 + pcm.length % 2 =
      44 + pcm.length + pcm.length % 2 from by omega]
  have step3 : wavChunkLoop (wavWrap pcm rate) (43 + pcm.length)
      (44 + pcm.length + pcm.length % 2)
      ⟨some 1, some 1, some rate, some 16, some pcm⟩ =
      Except.ok ⟨some 1, some 1, some rate, some 16, some pcm⟩ := by
    rw [show 43 + pcm.length = 42 + pcm.length + 1 from by omega]
    rw [wavChunkLoop]
    rw [if_neg (by rw [hlength]; omega)]
  rw [parseWavChunks]
  rw [if_neg (by rw [hlength]; omega)]
  rw [if_neg (not_not_intro ⟨h0, h1, h2, h3, h8, h9, h10, h11⟩)]
  rw [hlength, step1, step2, step3]
  norm_num

/-- Helper: a 4-byte little-endian read is always below 2^32. -/
theorem readLe32_lt (l : List Nat) (i : Nat) : readLe32 l i < 4294967296 := by
  unfold readLe32 byteAt
  omega

/-- Helper: the chunk walk only ever stores a sample rate below 2^32 and a
data slice shorter than 2^32 bytes (the slice is clamped to the declared
32-bit chunk size). -/
theorem wavChunkLoop_inv (wav : List Nat) :
    ∀ (fuel offset : Nat) (st st2 : WavScan),
      ((∀ r, st.sample_rate = some r → r < 4294967296) ∧
       (∀ d, st.data = some d → d.length < 4294967296)) →
      wavChunkLoop wav fuel offset st = Except.ok st2 →
      ((∀ r, st2.sample_rate = some r → r < 4294967296) ∧
       (∀ d, st2.data = some d → d.length < 4294967296)) := by
  intro fuel
  induction fuel with
  | zero =>
    intro offset st st2 hP h
    rw [wavChunkLoop] at h
    cases h
    exact hP
  | succ fuel ih =>
    intro offset st st2 hP h
    rw [wavChunkLoop] at h
    dsimp only at h
    split at h
    · split at h
      · split at h
        · cases h
        · refine ih _ _ _ ?_ h
          refine ⟨?_, hP.2⟩
          intro r hr
          obtain rfl : readLe32 wav (offset + 8 + 4) = r := by
            simpa using hr
          exact readLe32_lt _ _
      · split at h
        · refine ih _ _ _ ?_ h
          refine ⟨hP.1, ?_⟩
          intro d hd
          obtain rfl : (wav.drop (offset + 8)).take
              (min (offset + 8 + readLe32 wav (offset + 4)) wav.length -
                (offset + 8)) = d := by
            simpa using hd
          have hsz := readLe32_lt wav (offset + 4)
          rw [List.length_take]
          omega
        · exact ih _ _ _ hP h
    · cases h
      exact hP

/-- Helper: a successful chunk parse has a positive channel count, a
sample rate below 2^32, and a data slice shorter than 2^32 bytes. -/
theorem parseWavChunks_ok_facts (wav : List Nat) (f ch sr bps : Nat)
    (data : List Nat)
    (h : parseWavChunks wav = Except.ok (f, ch, sr, bps, data)) :
    0 < ch ∧ sr < 4294967296 ∧ data.length < 4294967296 := by
  rw [parseWavChunks] at h
  split at h
  · cases h
  split at h
  · cases h
  rcases hloop : wavChunkLoop wav (wav.length + 1) 12
      ⟨none, none, none, none, none⟩ with e | st <;> rw [hloop] at h
  · cases h
  have hst := wavChunkLoop_inv wav (wav.length + 1) 12 _ st
    ⟨(fun r hr => Option.noConfusion hr), (fun d hd => Option.noConfusion hd)⟩ hloop
  obtain ⟨sf, sc, ss, sb, sd⟩ := st
  dsimp only at h
  rcases sf with _ | fv
  · simp at h
  rcases sc with _ | cv
  · simp at h
  rcases ss with _ | sv
  · simp at h
  rcases sb with _ | bv
  · simp at h
  rcases sd with _ | dv
  · simp at h
  dsimp only at h
  split at h
  · cases h
  rename_i hcz
  obtain ⟨h1, h2, h3, h4, h5⟩ :
      fv = f ∧ cv = ch ∧ sv = sr ∧ bv = bps ∧ dv = data := by
    simpa using h
  refine ⟨by omega, ?_, ?_⟩
  · rw [← h3]
    exact hst.1 sv rfl
  · rw [← h5]
    exact hst.2 dv rfl

/-- Helper: both bytes emitted for one mono sample are in byte range. -/
theorem le16OfInt_lt (v : ℤ) : ∀ b ∈ le16OfInt v, b < 256 := by
  intro b hb
  rcases List.mem_pair.mp hb with rfl | rfl <;> omega

/-- Helper: the PCM16 mono loop emits an even number of bytes, at most as
many as it consumes, all in byte range. -/
theorem pcm16MonoLoop_facts (ch : Nat) :
    ∀ (fuel : Nat) (data : List Nat),
      (pcm16MonoLoop ch fuel data).length % 2 = 0 ∧
      (pcm16MonoLoop ch fuel data).length ≤ data.length ∧
      (∀ b ∈ pcm16MonoLoop ch fuel data, b < 256) := by
  intro fuel
  induction fuel with
  | zero =>
    intro data
    simp [pcm16MonoLoop]
  | succ fuel ih =>
    intro data
    rw [pcm16MonoLoop]
    split
    · rename_i hcond
      obtain ⟨ih1, ih2, ih3⟩ := ih (data.drop (2 * ch))
      rw [List.length_append, List.length_drop] at *
      refine ⟨by simp [le16OfInt]; omega, ?_, ?_⟩
      · simp only [le16OfInt, List.length_cons, List.length_nil]
        omega
      · intro b hb
        rcases List.mem_append.mp hb with hb1 | hb2
        · exact le16OfInt_lt _ b hb1
        · exact ih3 b hb2
    · simp

/-- Helper: the float32 mono loop emits an even number of bytes, at most
half as many as it consumes, all in byte range. -/
theorem float32MonoLoop_facts (ch : Nat) :
    ∀ (fuel : Nat) (data : List Nat),
      (float32MonoLoop ch fuel data).length % 2 = 0 ∧
      (float32MonoLoop ch fuel data).length ≤ data.length ∧
      (∀ b ∈ float32MonoLoop ch fuel data, b < 256) := by
  intro fuel
  induction fuel with
  | zero =>
    intro data
    simp [float32MonoLoop]
  | succ fuel ih =>
    intro data
    rw [float32MonoLoop]
    split
    · rename_i hcond
      obtain ⟨ih1, ih2, ih3⟩ := ih (data.drop (4 * ch))
      rw [List.length_append, List.length_drop] at *
      refine ⟨by simp [le16OfInt]; omega, ?_, ?_⟩
      · simp only [le16OfInt, List.length_cons, List.length_nil]
        omega
      · intro b hb
        rcases List.mem_append.mp hb with hb1 | hb2
        · exact le16OfInt_lt _ b hb1
        · exact ih3 b hb2
    · simp

/-- Helper: when at least one complete frame is available the PCM16 mono
loop emits at least one sample. -/
theorem pcm16MonoLoop_length_pos (ch fuel : Nat) (data : List Nat)
    (hch : 0 < ch) (hlen : 2 * ch ≤ data.length) (hfuel : 1 ≤ fuel) :
    2 ≤ (pcm16MonoLoop ch fuel data).length := by
  rcases fuel with _ | fuel
  · omega
  · rw [pcm16MonoLoop, if_pos ⟨hch, hlen⟩]
    simp [le16OfInt]

/-- Helper: same for the float32 mono loop. -/
theorem float32MonoLoop_length_pos (ch fuel : Nat) (data : List Nat)
    (hch : 0 < ch) (hlen : 4 * ch ≤ data.length) (hfuel : 1 ≤ fuel) :
    2 ≤ (float32MonoLoop ch fuel data).length := by
  rcases fuel with _ | fuel
  · omega
  · rw [float32MonoLoop, if_pos ⟨hch, hlen⟩]
    simp [le16OfInt]

/-- Helper: every successfully decoded PCM buffer is even-length,
non-empty, shorter than 2^32 bytes, carries an in-range sample rate, and
holds honest byte values. -/
theorem wavToInt16Pcm_ok_facts (wav pcm : List Nat) (rate : Nat)
    (h : wavToInt16Pcm wav = Except.ok (pcm, rate)) :
    pcm.length % 2 = 0 ∧ 2 ≤ pcm.length ∧ pcm.length < 4294967296 ∧
    rate < 4294967296 ∧ (∀ b ∈ pcm, b < 256) := by
  rw [wavToInt16Pcm] at h
  rcases hp : parseWavChunks wav with e | q <;> rw [hp] at h
  · cases h
  obtain ⟨f, ch, sr, bps, data⟩ := q
  obtain ⟨hch, hsr, hdata⟩ := parseWavChunks_ok_facts wav f ch sr bps data hp
  have hp16 : pcm16ToMono data ch sr = Except.ok (pcm, rate) →
      pcm.length % 2 = 0 ∧ 2 ≤ pcm.length ∧ pcm.length < 4294967296 ∧
      rate < 4294967296 ∧ (∀ b ∈ pcm, b < 256) := by
    intro hmono
    rw [pcm16ToMono] at hmono
    split at hmono
    · cases hmono
    rename_i hguard
    obtain ⟨h1, h2⟩ : pcm16MonoLoop ch data.length data = pcm ∧ sr = rate := by
      simpa using hmono
    obtain ⟨e1, e2, e3⟩ := pcm16MonoLoop_facts ch data.length data
    subst h1
    subst h2
    refine ⟨e1, ?_, by omega, hsr, e3⟩
    exact pcm16MonoLoop_length_pos ch data.length data hch (by omega) (by omega)
  have hf32 : float32ToMono data ch sr = Except.ok (pcm, rate) →
      pcm.length % 2 = 0 ∧ 2 ≤ pcm.length ∧ pcm.length < 4294967296 ∧
      rate < 4294967296 ∧ (∀ b ∈ pcm, b < 256) := by
    intro hmono
    rw [float32ToMono] at hmono
    split at hmono
    · cases hmono
    rename_i hguard
    obtain ⟨h1, h2⟩ : float32MonoLoop ch data.length data = pcm ∧ sr = rate := by
      simpa using hmono
    obtain ⟨e1, e2, e3⟩ := float32MonoLoop_facts ch data.length data
    subst h1
    subst h2
    refine ⟨e1, ?_, by omega, hsr, e3⟩
    exact float32MonoLoop_length_pos ch data.length data hch (by omega) (by omega)
  dsimp only at h
  split_ifs at h
  · exact hp16 h
  · exact hf32 h
  · exact hp16 h
  · exact hf32 h

/-- Helper: re-encoding one decoded 16-bit word gives back its two bytes. -/
theorem le16OfInt_toInt16 (m : Nat) (hm : m < 65536) :
    le16OfInt (toInt16 m) = [m % 256, m / 256] := by
  unfold le16OfInt toInt16
  split_ifs with h <;> simp only [List.cons.injEq, and_true] <;>
    constructor <;> omega

/-- Helper: the mono loop at one channel is the identity on an even-length
honest byte buffer. -/
theorem pcm16MonoLoop_one_id :
    ∀ (fuel : Nat) (l : List Nat), l.length ≤ fuel → l.length % 2 = 0 →
      (∀ b ∈ l, b < 256) → pcm16MonoLoop 1 fuel l = l := by
  intro fuel
  induction fuel with
  | zero =>
    intro l hl _ _
    have hnil : l = [] := List.eq_nil_of_length_eq_zero (by omega)
    subst hnil
    rfl
  | succ fuel ih =>
    intro l hl hpar hb
    rcases l with _ | ⟨a, _ | ⟨b, rest⟩⟩
    · rfl
    · simp at hpar
    · have ha : a < 256 := hb a (by simp)
      have hbb : b < 256 := hb b (by simp)
      rw [pcm16MonoLoop,
        if_pos ⟨Nat.zero_lt_one, by simp only [List.length_cons]; omega⟩]
      have htake : (a :: b :: rest).take (2 * 1) = [a, b] := rfl
      have hdrop : (a :: b :: rest).drop (2 * 1) = rest := rfl
      rw [htake, hdrop]
      have hsum : frameSum16 1 [a, b] = toInt16 (a + 256 * b) := by
        simp [frameSum16, readLe16, byteAt, List.getD,
          Nat.mod_eq_of_lt ha, Nat.mod_eq_of_lt hbb]
      rw [hsum, Nat.cast_one, Int.tdiv_one]
      rw [le16OfInt_toInt16 (a + 256 * b) (by omega)]
      have h1 : (a + 256 * b) % 256 = a := by omega
      have h2 : (a + 256 * b) / 256 = b := by omega
      rw [h1, h2]
      rw [ih rest (by simp only [List.length_cons] at hl; omega)
        (by simp only [List.length_cons] at hpar; omega)
        (fun x hx => hb x (by simp [hx]))]
      rfl

/-- C3: for every PCM buffer and sample rate produced by a successful
decode, re-encoding with the canonical WAVE encoder (`wav_wrap`) and
decoding again with `wav_to_int16_pcm` succeeds and yields byte-identical
PCM and the same sample rate. -/
theorem wav_roundtrip (wav pcm : List Nat) (rate : Nat)
    (h : wavToInt16Pcm wav = Except.ok (pcm, rate)) :
    wavToInt16Pcm (wavWrap pcm rate) = Except.ok (pcm, rate) := by
  obtain ⟨heven, hge2, hlt, hrate, hbytes⟩ :=
    wavToInt16Pcm_ok_facts wav pcm rate h
  rw [wavToInt16Pcm, parseWavChunks_wavWrap pcm rate hrate hlt]
  dsimp only
  rw [if_pos ⟨rfl, rfl⟩]
  rw [pcm16ToMono, if_neg (by omega)]
  rw [pcm16MonoLoop_one_id pcm.length pcm (le_refl _) heven hbytes]

/-- Witness for C3: decoding a concrete canonical file, re-encoding, and
decoding again round-trips. -/
theorem wav_roundtrip_witness :
    wavToInt16Pcm (wavWrap [1, 2, 3, 4] 8000) =
      Except.ok ([1, 2, 3, 4], 8000) :=
  wav_roundtrip truncChunkWav [1, 2, 3, 4] 8000 (by decide)

/-- Counterexample for C8: a WAVE buffer whose `data` chunk declares 100
bytes but carries only 4 decodes successfully — the truncated chunk is
clamped to the bytes available (`chunk_end = min(..., len)`), not
rejected. -/
theorem wav_truncated_chunk_cex :
    wavToInt16Pcm truncChunkWav = Except.ok ([1, 2, 3, 4], 8000) ∧
    ∀ e : String, wavToInt16Pcm truncChunkWav ≠ Except.error e := by
  have hok : wavToInt16Pcm truncChunkWav = Except.ok ([1, 2, 3, 4], 8000) := by
    decide
  refine ⟨hok, ?_⟩
  intro e he
  exact Except.noConfusion (hok.symm.trans he)

/-- C8 (amended): decoding reports fatal, named errors for zero channels
and unrecognized format/bit-depth pairs, but a chunk whose declared size
extends past the end of the buffer is silently clamped to the available
bytes rather than rejected (only a fmt chunk with fewer than 16 available
bytes is an error).  In particular a successful parse always has a
positive channel count. -/
theorem wav_decode_error_policy :
    wavToInt16Pcm truncChunkWav = Except.ok ([1, 2, 3, 4], 8000) ∧
    wavToInt16Pcm zeroChannelWav = Except.error ("WAV has zero channels") ∧
    wavToInt16Pcm unsupportedFormatWav =
      Except.error ("Unsupported WAV format: format=2 bits=16") ∧
    (∀ (wav : List Nat) (f ch sr bps : Nat) (data : List Nat),
      parseWavChunks wav = Except.ok (f, ch, sr, bps, data) → 0 < ch) := by
  refine ⟨by decide, by decide, by decide, ?_⟩
  intro wav f ch sr bps data h
  exact (parseWavChunks_ok_facts wav f ch sr bps data h).1

/-- Witness for C8: the truncated-chunk buffer parses successfully and its
channel count is indeed positive. -/
theorem wav_decode_error_policy_witness :
    parseWavChunks truncChunkWav = Except.ok (1, 1, 8000, 16, [1, 2, 3, 4]) ∧
    0 < 1 :=
  ⟨by decide,
   wav_decode_error_policy.2.2.2 truncChunkWav 1 1 8000 16 [1, 2, 3, 4]
     (by decide)⟩
